import Mathlib

/-!
Verification development for the `joker` lexer crate of the esprit repository
(`src/crates/joker/src/lexer.rs`, with position types from
`src/crates/joker/src/track.rs`).

The scanner engine in `lexer.rs` is translated function by function.  The
supporting leaf modules of the crate (`reader.rs`, `token.rs`, `lookahead.rs`,
`context.rs`, `char.rs`, `word.rs`, `error.rs`) are not part of the given
sources; they are modelled from the specification (sections 3, 4.1-4.4 and 7),
and each such definition is marked `Modelled from the spec`.

Conventions of the embedding:
* Rust `&mut self` methods returning `Result<T>` become functions
  `Reader → (Except Error T) × Reader`: the reader component is the state of
  the character source after the call, on success and on failure alike.
* Rust `String` buffers are modelled as `List Char`, converted to `String`
  only when stored into a token payload.
* Every scanning loop takes an explicit fuel argument so that recursion is
  structural; every call site passes `input.length + 1`, which exceeds the
  number of iterations (each iteration consumes at least one character), so
  the fuel-exhaustion branches are unreachable.
* `debug_assert!` has no effect in a release build; the translation follows
  the release semantics of the code and notes each dropped assertion.
-/

namespace Joker

/-- Source position, from `track.rs` (`Posn`): zero-based offset, line and
column. -/
structure Posn where
  offset : Nat
  line : Nat
  column : Nat
deriving Repr, DecidableEq

/-- Origin position, from `track.rs` (`Posn::origin`). -/
def Posn.origin : Posn := ⟨0, 0, 0⟩

/-- Source span, from `track.rs` (`Span`).  The source field `end` is a Lean
keyword and is rendered `stop`. -/
structure Span where
  start : Posn
  stop : Posn
deriving Repr, DecidableEq

/-- Letter-case marker of a radix prefix or exponent letter.  Modelled from
the spec: `token.rs` is not in the sources; the spec (section 3) records
`letterCase-of-prefix` and exponent `case` metadata. -/
inductive CharCase
  | LowerCase
  | UpperCase
deriving Repr, DecidableEq

/-- Sign of an exponent.  Modelled from the spec (section 3): `exponent` is
`{case, sign?, digits}`. -/
inductive Sign
  | Plus
  | Minus
deriving Repr, DecidableEq

/-- Exponent part of a numeric literal.  Modelled from the spec (section 3)
and the construction in `lexer.rs` (`read_exp_part`). -/
structure Exp where
  e : CharCase
  sign : Option Sign
  value : String
deriving Repr, DecidableEq

/-- Radix of a radix integer literal.  Modelled from the spec (section 3):
`RadixInt(radix ∈ {Hex, Oct, Bin}, letterCase-of-prefix, digits)`; the octal
case marker is optional because a legacy octal literal has no prefix letter
(`Radix::Oct(None)` in `lexer.rs`). -/
inductive Radix
  | Hex (cc : CharCase)
  | Oct (cc : Option CharCase)
  | Bin (cc : CharCase)
deriving Repr, DecidableEq

/-- Number literal sub-model.  Modelled from the spec (section 3):
`DecimalInt(digits, exponent?)`, `Float(intPart?, fracPart?, exponent?)`,
`RadixInt(radix, digits)`, matching the constructions in `lexer.rs`. -/
inductive NumberSource
  | DecimalInt (digits : String) (exp : Option Exp)
  | RadixInt (radix : Radix) (digits : String)
  | Float (intPart : Option String) (fracPart : Option String) (exp : Option Exp)
deriving Repr, DecidableEq

/-- String literal payload.  Modelled from the spec (section 3): decoded
value plus, where available, original source text. -/
structure StringLiteral where
  source : Option String
  value : String
deriving Repr, DecidableEq

/-- Regular-expression literal payload.  Modelled from the spec (section 3):
pattern text and set of flag characters (`flags.chars().collect()` in
`lexer.rs`). -/
structure RegExpLiteral where
  pattern : String
  flags : List Char
deriving Repr, DecidableEq

/-- Token payload.  Modelled from the spec (section 3: a closed tagged union)
together with every variant used by `lexer.rs`; `token.rs` itself is not in
the sources. -/
inductive TokenData
  | Reserved (word : String)
  | LBrace | RBrace | LParen | RParen | LBrack | RBrack
  | Semi | Colon | Comma | Dot
  | Assign | PlusAssign | MinusAssign | StarAssign | SlashAssign | ModAssign
  | LShiftAssign | RShiftAssign | URShiftAssign
  | BitAndAssign | BitOrAssign | BitXorAssign
  | Plus | Minus | Star | Slash | Mod | Inc | Dec
  | LShift | RShift | URShift | BitAnd | BitOr | BitXor | Tilde
  | Eq | NEq | StrictEq | StrictNEq | LEq | GEq | LAngle | RAngle
  | LogicalAnd | LogicalOr | Bang | Question
  | Number (source : NumberSource)
  | String (lit : StringLiteral)
  | RegExp (lit : RegExpLiteral)
  | Identifier (name : String)
  | EOF
deriving Repr

/-- Structural equality test for `TokenData`, written as nested
single-scrutinee matches (the automatically derived decision procedure
produces one impractically large matcher over both arguments). -/
def TokenData.beq (a b : TokenData) : Bool :=
  match a with
  | .Reserved x => match b with | .Reserved y => decide (x = y) | _ => false
  | .LBrace => match b with | .LBrace => true | _ => false
  | .RBrace => match b with | .RBrace => true | _ => false
  | .LParen => match b with | .LParen => true | _ => false
  | .RParen => match b with | .RParen => true | _ => false
  | .LBrack => match b with | .LBrack => true | _ => false
  | .RBrack => match b with | .RBrack => true | _ => false
  | .Semi => match b with | .Semi => true | _ => false
  | .Colon => match b with | .Colon => true | _ => false
  | .Comma => match b with | .Comma => true | _ => false
  | .Dot => match b with | .Dot => true | _ => false
  | .Assign => match b with | .Assign => true | _ => false
  | .PlusAssign => match b with | .PlusAssign => true | _ => false
  | .MinusAssign => match b with | .MinusAssign => true | _ => false
  | .StarAssign => match b with | .StarAssign => true | _ => false
  | .SlashAssign => match b with | .SlashAssign => true | _ => false
  | .ModAssign => match b with | .ModAssign => true | _ => false
  | .LShiftAssign => match b with | .LShiftAssign => true | _ => false
  | .RShiftAssign => match b with | .RShiftAssign => true | _ => false
  | .URShiftAssign => match b with | .URShiftAssign => true | _ => false
  | .BitAndAssign => match b with | .BitAndAssign => true | _ => false
  | .BitOrAssign => match b with | .BitOrAssign => true | _ => false
  | .BitXorAssign => match b with | .BitXorAssign => true | _ => false
  | .Plus => match b with | .Plus => true | _ => false
  | .Minus => match b with | .Minus => true | _ => false
  | .Star => match b with | .Star => true | _ => false
  | .Slash => match b with | .Slash => true | _ => false
  | .Mod => match b with | .Mod => true | _ => false
  | .Inc => match b with | .Inc => true | _ => false
  | .Dec => match b with | .Dec => true | _ => false
  | .LShift => match b with | .LShift => true | _ => false
  | .RShift => match b with | .RShift => true | _ => false
  | .URShift => match b with | .URShift => true | _ => false
  | .BitAnd => match b with | .BitAnd => true | _ => false
  | .BitOr => match b with | .BitOr => true | _ => false
  | .BitXor => match b with | .BitXor => true | _ => false
  | .Tilde => match b with | .Tilde => true | _ => false
  | .Eq => match b with | .Eq => true | _ => false
  | .NEq => match b with | .NEq => true | _ => false
  | .StrictEq => match b with | .StrictEq => true | _ => false
  | .StrictNEq => match b with | .StrictNEq => true | _ => false
  | .LEq => match b with | .LEq => true | _ => false
  | .GEq => match b with | .GEq => true | _ => false
  | .LAngle => match b with | .LAngle => true | _ => false
  | .RAngle => match b with | .RAngle => true | _ => false
  | .LogicalAnd => match b with | .LogicalAnd => true | _ => false
  | .LogicalOr => match b with | .LogicalOr => true | _ => false
  | .Bang => match b with | .Bang => true | _ => false
  | .Question => match b with | .Question => true | _ => false
  | .Number x => match b with | .Number y => decide (x = y) | _ => false
  | .String x => match b with | .String y => decide (x = y) | _ => false
  | .RegExp x => match b with | .RegExp y => decide (x = y) | _ => false
  | .Identifier x => match b with | .Identifier y => decide (x = y) | _ => false
  | .EOF => match b with | .EOF => true | _ => false

/-- Decidable equality for `TokenData` through `TokenData.beq`. -/
instance TokenData.instDecEq : DecidableEq TokenData := fun a b =>
  decidable_of_iff (TokenData.beq a b = true) (by
    constructor
    · cases a <;> cases b <;>
        first
          | exact fun h => Bool.noConfusion h
          | exact fun _ => rfl
          | exact fun h => congrArg _ (of_decide_eq_true h)
    · intro he
      rw [he]
      cases b <;> first | rfl | exact decide_eq_true rfl)

/-- Token: span, newline-before flag and payload.  Modelled from the spec
(section 3) and the uses in `lexer.rs` (`Token::new(start, end, value)`
followed by `result.newline = found_newline`). -/
structure Token where
  location : Span
  newline : Bool
  value : TokenData
deriving Repr, DecidableEq

/-- `Token::new`: builds a token with the given span; the `newline` flag
starts out false and is overwritten by `read_next_token`. -/
def Token.new (start stop : Posn) (value : TokenData) : Token :=
  ⟨⟨start, stop⟩, false, value⟩

/-- Lexical error taxonomy.  Modelled from the spec (section 7); `error.rs`
is not in the sources.  Every variant is constructed in `lexer.rs`. -/
inductive Error
  | IllegalChar (c : Char)
  | UnterminatedString (c : Option Char)
  | UnterminatedComment
  | UnterminatedRegExp (c : Option Char)
  | MissingExponent (c : Option Char)
  | MissingHexDigits
  | MissingOctalDigits
  | MissingBinaryDigits
  | InvalidDigit (c : Char)
  | IdAfterNumber (c : Char)
  | DigitAfterNumber (c : Char)
  | IncompleteWordEscape (c : Option Char)
  | IllegalUnicode (code : Nat)
deriving Repr, DecidableEq

/-- Modelled from the spec: `char.rs` (`is_es_newline`) is not in the
sources; the ES line terminators are LF, CR, LS and PS (section 4.1 treats
`\r\n` as one unit). -/
def isEsNewline (c : Char) : Bool :=
  c = '\n' || c = '\r' || c = '\u2028' || c = '\u2029'

/-- Modelled from the spec: `char.rs` (`is_es_whitespace`) is not in the
sources; ES whitespace is tab, VT, FF, space, NBSP and BOM. -/
def isEsWhitespace (c : Char) : Bool :=
  c = ' ' || c = '\t' || c = '\u000B' || c = '\u000C' || c = '\u00A0' || c = '\uFEFF'

/-- Modelled from the spec: `char.rs` (`is_es_oct_digit`). -/
def isEsOctDigit (c : Char) : Bool :=
  '0' ≤ c && c ≤ '7'

/-- Modelled from the spec: `char.rs` (`is_es_bin_digit`). -/
def isEsBinDigit (c : Char) : Bool :=
  c = '0' || c = '1'

/-- Modelled from the spec: `char.rs` (`is_es_hex_digit`). -/
def isEsHexDigit (c : Char) : Bool :=
  c.isDigit || ('a' ≤ c && c ≤ 'f') || ('A' ≤ c && c ≤ 'F')

/-- Modelled from the spec: `char.rs` (`is_es_identifier_start`); the model
covers letters, `$` and `_`. -/
def isEsIdentifierStart (c : Char) : Bool :=
  c.isAlpha || c = '$' || c = '_'

/-- Modelled from the spec: `char.rs` (`is_es_identifier_continue`):
identifier-start characters and digits. -/
def isEsIdentifierContinue (c : Char) : Bool :=
  isEsIdentifierStart c || c.isDigit

/-- Modelled from the spec: `char.rs` (`is_es_single_escape_char`); the ES
single escape characters. -/
def isEsSingleEscapeChar (c : Char) : Bool :=
  c = '\'' || c = '"' || c = '\\' || c = 'b' || c = 'f' ||
  c = 'n' || c = 'r' || c = 't' || c = 'v'

/-- Modelled from the spec: `char.rs` (`unescape`): maps a single escape
character to its control value; any other character maps to itself. -/
def unescape (c : Char) : Char :=
  if c = 'b' then '\x08'
  else if c = 'f' then '\x0C'
  else if c = 'n' then '\n'
  else if c = 'r' then '\r'
  else if c = 't' then '\t'
  else if c = 'v' then '\x0B'
  else c

/-- Rust `char::from_u32`: `some` exactly when the value is a unicode scalar
value (not a surrogate, at most `0x10FFFF`). -/
def charFromU32 (n : Nat) : Option Char :=
  if n < 0xD800 ∨ (0xDFFF < n ∧ n < 0x110000) then
    some (Char.ofNat n)
  else
    none

/-- Rust `char::to_digit(radix).unwrap()`; every call site guards the
character with a digit predicate for the radix, under which this agrees with
the source. -/
def charToDigit (c : Char) : Nat :=
  if '0' ≤ c && c ≤ '9' then c.toNat - '0'.toNat
  else if 'a' ≤ c && c ≤ 'z' then c.toNat - 'a'.toNat + 10
  else if 'A' ≤ c && c ≤ 'Z' then c.toNat - 'A'.toNat + 10
  else 0

/-- `add_digits` from `lexer.rs`: folds a digit list most-significant first
into a `u32` (wrapping arithmetic, hence the `% 2^32`). -/
def add_digits (digits : List Nat) (radix : Nat) : Nat :=
  (digits.reverse.foldl
    (fun acc d => ((acc.1 + d * acc.2) % 4294967296, (acc.2 * radix) % 4294967296))
    (0, 1)).1

/-- Character source.  Modelled from the spec (section 4.1): `reader.rs` is
not in the sources.  Wraps the remaining input characters and the current
position. -/
structure Reader where
  input : List Char
  pos : Posn
deriving Repr, DecidableEq

/-- Modelled from the spec (section 4.1): the current character
(`curr_char`). -/
def Reader.currChar (r : Reader) : Option Char :=
  r.input.head?

/-- Modelled from the spec (section 4.1): the character after the current one
(`next_char`). -/
def Reader.nextChar (r : Reader) : Option Char :=
  r.input.tail.head?

/-- Modelled from the spec (section 4.1): consuming one character advances
the offset; the line is incremented (and the column reset) on any recognized
line-terminator sequence, with `\r\n` counted as one unit (the line bump
happens on its second character); advancing past end-of-input is a no-op. -/
def Reader.skip (r : Reader) : Reader :=
  match r.input with
  | [] => r
  | c :: rest =>
    if isEsNewline c && !(c = '\r' && rest.head? = some '\n') then
      ⟨rest, ⟨r.pos.offset + 1, r.pos.line + 1, 0⟩⟩
    else
      ⟨rest, ⟨r.pos.offset + 1, r.pos.line, r.pos.column + 1⟩⟩

/-- A reader positioned at the start of the given source text. -/
def mkReader (s : String) : Reader :=
  ⟨s.data, Posn.origin⟩

/-- `Lexer::read` from `lexer.rs`: consume and return the current character.
The source unwraps `curr_char()`; every call site has already checked that a
current character exists, so the default is never produced. -/
def Lexer.read (r : Reader) : Char × Reader :=
  (r.currChar.getD '\x00', r.skip)

/-- `Lexer::reread` from `lexer.rs`: skip and return the character the caller
already peeked.  The source `debug_assert!(self.peek() == Some(ch))` has no
effect in release builds; at end-of-input the skip is a no-op and the given
character is still returned. -/
def Lexer.reread (r : Reader) (ch : Char) : Char × Reader :=
  (ch, r.skip)

/-- `Lexer::matches` from `lexer.rs`: consume the current character when it
equals `ch`. -/
def Lexer.matches (r : Reader) (ch : Char) : Bool × Reader :=
  if r.currChar = some ch then (true, r.skip) else (false, r)

/-- `Lexer::skip_until` from `lexer.rs`: skip characters until the predicate
holds or end-of-input.  Fuel-based; each iteration consumes one character. -/
def skipUntil (p : Char → Bool) : Nat → Reader → Reader
  | 0, r => r
  | fuel + 1, r =>
    match r.currChar with
    | some ch => if p ch then r else skipUntil p fuel r.skip
    | none => r

/-- `Lexer::read_into_until` from `lexer.rs`: copy characters into the buffer
until the predicate holds or end-of-input. -/
def readIntoUntil (p : Char → Bool) : Nat → Reader → List Char → List Char × Reader
  | 0, r, s => (s, r)
  | fuel + 1, r, s =>
    match r.currChar with
    | some ch => if p ch then (s, r) else readIntoUntil p fuel r.skip (s ++ [ch])
    | none => (s, r)

/-- `Lexer::read_into2_until` from `lexer.rs`: copy characters into both
buffers until the predicate holds or end-of-input. -/
def readInto2Until (p : Char → Bool) :
    Nat → Reader → List Char → List Char → List Char × List Char × Reader
  | 0, r, s1, s2 => (s1, s2, r)
  | fuel + 1, r, s1, s2 =>
    match r.currChar with
    | some ch =>
      if p ch then (s1, s2, r)
      else readInto2Until p fuel r.skip (s1 ++ [ch]) (s2 ++ [ch])
    | none => (s1, s2, r)

/-- `Lexer::skip_newlines` from `lexer.rs`: skip a run of line-terminator
sequences, consuming `\r\n` as a pair. -/
def skipNewlines : Nat → Reader → Reader
  | 0, r => r
  | fuel + 1, r =>
    match r.currChar, r.nextChar with
    | some '\r', some '\n' => skipNewlines fuel r.skip.skip
    | some ch, _ => if isEsNewline ch then skipNewlines fuel r.skip else r
    | none, _ => r

/-- `Lexer::read_newline_into` from `lexer.rs`: copy one line-terminator
sequence (with `\r\n` as a unit) into the buffer. -/
def readNewlineInto (r : Reader) (s : List Char) : List Char × Reader :=
  if r.currChar = some '\r' && r.nextChar = some '\n' then
    (s ++ ['\r', '\n'], r.skip.skip)
  else
    let (c, r1) := Lexer.read r
    (s ++ [c], r1)

/-- `Lexer::skip_whitespace` from `lexer.rs` (`skip_while` of whitespace,
which is `skip_until` of its negation). -/
def skipWhitespace (r : Reader) : Reader :=
  skipUntil (fun ch => !isEsWhitespace ch) (r.input.length + 1) r

/-- `Lexer::skip_line_comment` from `lexer.rs`: skip the leading `//`, then
everything up to (not including) the next line terminator. -/
def skipLineComment (r : Reader) : Reader :=
  let r1 := r.skip.skip
  skipUntil isEsNewline (r1.input.length + 1) r1

/-- Loop body of `Lexer::skip_block_comment` from `lexer.rs`: scan to `*/`,
recording whether a line terminator was seen; end-of-input in either of the
two lookahead slots is `UnterminatedComment`. -/
def skipBlockCommentLoop : Nat → Reader → Bool → (Except Error Bool) × Reader
  | 0, r, foundNewline => (.ok foundNewline, r)
  | fuel + 1, r, foundNewline =>
    match r.currChar, r.nextChar with
    | none, _ => (.error .UnterminatedComment, r)
    | _, none => (.error .UnterminatedComment, r)
    | some '*', some '/' => (.ok foundNewline, r.skip.skip)
    | some ch, _ => skipBlockCommentLoop fuel r.skip (foundNewline || isEsNewline ch)

/-- `Lexer::skip_block_comment` from `lexer.rs`: skip the leading `/*` and
run the comment loop. -/
def skipBlockComment (r : Reader) : (Except Error Bool) × Reader :=
  let r1 := r.skip.skip
  skipBlockCommentLoop (r1.input.length + 1) r1 false

/-- `Lexer::read_regexp_backslash` from `lexer.rs`: copy the backslash and
the single following character; a line terminator or end-of-input after the
backslash is `UnterminatedRegExp`. -/
def readRegexpBackslash (r : Reader) (s : List Char) : (Except Error (List Char)) × Reader :=
  let (c0, r0) := Lexer.reread r '\\'
  let s0 := s ++ [c0]
  match r0.currChar with
  | some ch =>
    if isEsNewline ch then (.error (.UnterminatedRegExp (some ch)), r0)
    else (.ok (s0 ++ [ch]), r0.skip)
  | none => (.error (.UnterminatedRegExp none), r0)

/-- Loop of `Lexer::read_regexp_class` from `lexer.rs`: `read_until_with` of
`]` over `read_regexp_class_char`.  `read_until_with` returns `Ok` at
end-of-input, so the end-of-input arm of `read_regexp_class_char` (which
would report `UnterminatedRegExp(None)`) is never reached; a line terminator
is accepted as a class character (`read_regexp_class_char` has no newline
check, unlike `read_regexp_char`). -/
def readRegexpClassBody : Nat → Reader → List Char → (Except Error (List Char)) × Reader
  | 0, r, s => (.ok s, r)
  | fuel + 1, r, s =>
    match r.currChar with
    | some ']' => (.ok s, r)
    | none => (.ok s, r)
    | some '\\' =>
      match readRegexpBackslash r s with
      | (.ok s1, r1) => readRegexpClassBody fuel r1 s1
      | (.error e, r1) => (.error e, r1)
    | some ch => readRegexpClassBody fuel r.skip (s ++ [ch])

/-- `Lexer::read_regexp_class` from `lexer.rs`: copy `[`, the class body and
`]`.  The closing `reread(']')` pushes `]` even at end-of-input (its
`debug_assert!` is release-disabled). -/
def readRegexpClass (r : Reader) (s : List Char) : (Except Error (List Char)) × Reader :=
  let (c0, r0) := Lexer.reread r '['
  match readRegexpClassBody (r0.input.length + 1) r0 (s ++ [c0]) with
  | (.ok s1, r1) =>
    let (c2, r2) := Lexer.reread r1 ']'
    (.ok (s1 ++ [c2]), r2)
  | (.error e, r1) => (.error e, r1)

/-- Loop of `Lexer::read_regexp` from `lexer.rs`: `read_until_with` of `/`
over `read_regexp_char`.  `read_until_with` returns `Ok` at end-of-input, so
the end-of-input arm of `read_regexp_char` is never reached. -/
def readRegexpBody : Nat → Reader → List Char → (Except Error (List Char)) × Reader
  | 0, r, s => (.ok s, r)
  | fuel + 1, r, s =>
    match r.currChar with
    | some '/' => (.ok s, r)
    | none => (.ok s, r)
    | some '\\' =>
      match readRegexpBackslash r s with
      | (.ok s1, r1) => readRegexpBody fuel r1 s1
      | (.error e, r1) => (.error e, r1)
    | some '[' =>
      match readRegexpClass r s with
      | (.ok s1, r1) => readRegexpBody fuel r1 s1
      | (.error e, r1) => (.error e, r1)
    | some ch =>
      if isEsNewline ch then (.error (.UnterminatedRegExp (some ch)), r)
      else readRegexpBody fuel r.skip (s ++ [ch])

/-- `Lexer::read_digit_into` from `lexer.rs`: read one digit matching the
predicate; a non-matching character is `InvalidDigit`, end-of-input is the
given missing-digits error.  The `radix` argument is carried for fidelity;
`to_digit(radix).unwrap()` under the predicate guard is `charToDigit`. -/
def readDigitInto (r : Reader) (s : List Char) (_radix : Nat) (p : Char → Bool)
    (missingDigits : Error) : (Except Error (Nat × List Char)) × Reader :=
  match r.currChar with
  | some ch =>
    if p ch then (.ok (charToDigit ch, s ++ [ch]), r.skip)
    else (.error (.InvalidDigit ch), r)
  | none => (.error missingDigits, r)

/-- `Lexer::read_hex_digit_into` from `lexer.rs`. -/
def readHexDigitInto (r : Reader) (s : List Char) : (Except Error (Nat × List Char)) × Reader :=
  readDigitInto r s 16 isEsHexDigit .MissingHexDigits

/-- Brace-delimited part of `Lexer::read_unicode_escape_seq` from `lexer.rs`:
`read_until_with` of `}` collecting hex digits. -/
def readUnicodeBraceLoop :
    Nat → Reader → List Char → List Nat → (Except Error (List Nat × List Char)) × Reader
  | 0, r, s, digits => (.ok (digits, s), r)
  | fuel + 1, r, s, digits =>
    match r.currChar with
    | some '}' => (.ok (digits, s), r)
    | none => (.ok (digits, s), r)
    | some _ =>
      match readHexDigitInto r s with
      | (.ok (d, s1), r1) => readUnicodeBraceLoop fuel r1 s1 (digits ++ [d])
      | (.error e, r1) => (.error e, r1)

/-- Fixed four-digit part of `Lexer::read_unicode_escape_seq` from
`lexer.rs`: `code_point += digit * place` with `place` shifted right by four
bits each round (the `u32` sum is bounded by `0xFFFF`, so no wrapping is
needed). -/
def readHex4 : Nat → Nat → Nat → Reader → List Char → (Except Error (Nat × List Char)) × Reader
  | 0, _, code, r, s => (.ok (code, s), r)
  | k + 1, place, code, r, s =>
    match readHexDigitInto r s with
    | (.ok (d, s1), r1) => readHex4 k (place / 16) (code + d * place) r1 s1
    | (.error e, r1) => (.error e, r1)

/-- `Lexer::read_unicode_escape_seq` from `lexer.rs`: either `{H+}` (at least
one hex digit, folded by `add_digits`) or exactly four hex digits.  The
closing `reread('}')` pushes `}` even at end-of-input (release-disabled
`debug_assert!`). -/
def readUnicodeEscapeSeq (r : Reader) (s : List Char) : (Except Error (Nat × List Char)) × Reader :=
  let (m, r0) := Lexer.matches r '{'
  if m then
    let s0 := s ++ ['{']
    match readHexDigitInto r0 s0 with
    | (.ok (d0, s1), r1) =>
      match readUnicodeBraceLoop (r1.input.length + 1) r1 s1 [d0] with
      | (.ok (digits, s2), r2) =>
        let (c3, r3) := Lexer.reread r2 '}'
        (.ok (add_digits digits 16, s2 ++ [c3]), r3)
      | (.error e, r2) => (.error e, r2)
    | (.error e, r1) => (.error e, r1)
  else
    readHex4 4 0x1000 0 r0 s

/-- `Lexer::read_word_escape` from `lexer.rs`: after the consumed backslash,
anything but `u` is `IncompleteWordEscape`; the decoded code point must be a
valid character or the escape is `IllegalUnicode`.  The digits go into a
dummy buffer the source discards. -/
def readWordEscape (r : Reader) (s : List Char) : (Except Error (List Char)) × Reader :=
  match r.currChar with
  | some 'u' =>
    let (_, r0) := Lexer.reread r 'u'
    match readUnicodeEscapeSeq r0 [] with
    | (.ok (codePoint, _), r1) =>
      match charFromU32 codePoint with
      | some ch => (.ok (s ++ [ch]), r1)
      | none => (.error (.IllegalUnicode codePoint), r1)
    | (.error e, r1) => (.error e, r1)
  | cho => (.error (.IncompleteWordEscape cho), r)

/-- Loop of `Lexer::read_word_parts` from `lexer.rs`: `read_until_with` of
characters that are neither `\` nor identifier-continue; the body reads one
character and either decodes a word escape or keeps it. -/
def readWordPartsLoop : Nat → Reader → List Char → (Except Error (List Char)) × Reader
  | 0, r, s => (.ok s, r)
  | fuel + 1, r, s =>
    match r.currChar with
    | some ch =>
      if ch ≠ '\\' && !isEsIdentifierContinue ch then (.ok s, r)
      else
        let (c, r0) := Lexer.read r
        if c = '\\' then
          match readWordEscape r0 s with
          | (.ok s1, r1) => readWordPartsLoop fuel r1 s1
          | (.error e, r1) => (.error e, r1)
        else readWordPartsLoop fuel r0 (s ++ [c])
    | none => (.ok s, r)

/-- `Lexer::read_word_parts` from `lexer.rs`. -/
def readWordParts (r : Reader) : (Except Error (List Char)) × Reader :=
  readWordPartsLoop (r.input.length + 1) r []

/-- Modelled from the spec (section 4.4): `word.rs` is not in the sources.
The reserved-word set (`null`, `true`, `false` and the control keywords);
matching is exact, on the decoded name. -/
def reservedWords : List String :=
  ["null", "true", "false", "break", "case", "catch", "class", "const",
   "continue", "debugger", "default", "delete", "do", "else", "export",
   "extends", "finally", "for", "function", "if", "import", "in",
   "instanceof", "new", "return", "super", "switch", "this", "throw",
   "try", "typeof", "var", "void", "while", "with"]

/-- Modelled from the spec (section 4.4): `WordMap::tokenize` maps a decoded
name to a reserved-word token or an identifier token. -/
def wordmapTokenize (s : List Char) : TokenData :=
  if reservedWords.contains (String.mk s) then .Reserved (String.mk s)
  else .Identifier (String.mk s)

/-- `Lexer::read_word` from `lexer.rs`: read the word parts and classify the
decoded name.  (The source `debug_assert!`s that the current character starts
a word and that the result is nonempty; release-disabled.) -/
def read_word (r : Reader) : (Except Error Token) × Reader :=
  let start := r.pos
  match readWordParts r with
  | (.ok s, r1) => (.ok (Token.new start r1.pos (wordmapTokenize s)), r1)
  | (.error e, r1) => (.error e, r1)

/-- `Lexer::read_regexp` from `lexer.rs`: `/`, the pattern body, `/`, then
flags via `read_word_parts`.  The closing `reread('/')` is a release-mode
no-op at end-of-input. -/
def read_regexp (r : Reader) : (Except Error Token) × Reader :=
  let start := r.pos
  let (_, r0) := Lexer.reread r '/'
  match readRegexpBody (r0.input.length + 1) r0 [] with
  | (.ok s, r1) =>
    let (_, r2) := Lexer.reread r1 '/'
    match readWordParts r2 with
    | (.ok flags, r3) =>
      (.ok (Token.new start r3.pos (.RegExp ⟨String.mk s, flags⟩)), r3)
    | (.error e, r3) => (.error e, r3)
  | (.error e, r1) => (.error e, r1)

/-- Optional sign step of `Lexer::read_exp_part` from `lexer.rs`. -/
def readExpSign (r : Reader) : Option Sign × Reader :=
  match r.currChar with
  | some '+' => (some Sign.Plus, r.skip)
  | some '-' => (some Sign.Minus, r.skip)
  | _ => (none, r)

/-- `Lexer::read_exp_part`, continuation after the `e`/`E` was consumed:
optional sign, then at least one decimal digit (else `MissingExponent`). -/
def readExpRest (e : CharCase) (r : Reader) : (Except Error (Option Exp)) × Reader :=
  let (sign, r1) := readExpSign r
  match r1.currChar with
  | some ch =>
    if !ch.isDigit then (.error (.MissingExponent (some ch)), r1)
    else
      let (value, r2) := readIntoUntil (fun c => !c.isDigit) (r1.input.length + 1) r1 []
      (.ok (some ⟨e, sign, String.mk value⟩), r2)
  | none => (.error (.MissingExponent none), r1)

/-- `Lexer::read_exp_part` from `lexer.rs`: no `e`/`E` means no exponent. -/
def read_exp_part (r : Reader) : (Except Error (Option Exp)) × Reader :=
  match r.currChar with
  | some 'e' => readExpRest CharCase.LowerCase r.skip
  | some 'E' => readExpRest CharCase.UpperCase r.skip
  | _ => (.ok none, r)

/-- `Lexer::read_radix_int` from `lexer.rs`: skip the `0`, read the prefix
letter (its case becomes the flag), then one mandatory digit and a run of
further digits of the radix. -/
def read_radix_int (r : Reader) (radix : Nat) (p : Char → Bool)
    (cons : CharCase → String → TokenData) (missingDigits : Error) :
    (Except Error Token) × Reader :=
  let start := r.pos
  let r1 := r.skip
  let (letter, r2) := Lexer.read r1
  let flag := if letter.isLower then CharCase.LowerCase else CharCase.UpperCase
  match readDigitInto r2 [] radix p missingDigits with
  | (.ok (_, s1), r3) =>
    let (s2, r4) := readIntoUntil (fun ch => !p ch) (r3.input.length + 1) r3 s1
    (.ok (Token.new start r4.pos (cons flag (String.mk s2))), r4)
  | (.error e, r3) => (.error e, r3)

/-- `Lexer::read_hex_int` from `lexer.rs`. -/
def read_hex_int (r : Reader) : (Except Error Token) × Reader :=
  read_radix_int r 16 isEsHexDigit
    (fun cc s => .Number (.RadixInt (.Hex cc) s)) .MissingHexDigits

/-- `Lexer::read_oct_int` from `lexer.rs`. -/
def read_oct_int (r : Reader) : (Except Error Token) × Reader :=
  read_radix_int r 8 isEsOctDigit
    (fun cc s => .Number (.RadixInt (.Oct (some cc)) s)) .MissingOctalDigits

/-- `Lexer::read_bin_int` from `lexer.rs`. -/
def read_bin_int (r : Reader) : (Except Error Token) × Reader :=
  read_radix_int r 2 isEsBinDigit
    (fun cc s => .Number (.RadixInt (.Bin cc) s)) .MissingBinaryDigits

/-- `Lexer::read_deprecated_oct_int` from `lexer.rs`: skip the leading `0`,
read the run of decimal digits; all-octal digits give `RadixInt(Oct(None))`,
otherwise the digits are a `DecimalInt` reconstructed with the literal `0`
prefix (`format!("0{}", s)`). -/
def read_deprecated_oct_int (r : Reader) : Token × Reader :=
  let start := r.pos
  let r1 := r.skip
  let (s, r2) := readIntoUntil (fun ch => !ch.isDigit) (r1.input.length + 1) r1 []
  (Token.new start r2.pos
    (if s.all isEsOctDigit then .Number (.RadixInt (.Oct none) (String.mk s))
     else .Number (.DecimalInt (String.mk ('0' :: s)) none)), r2)

/-- Fraction step of the decimal arm of `Lexer::read_number` from
`lexer.rs`: after a consumed `.`, a run of decimal digits when one follows,
else an empty fraction; without the dot, no fraction. -/
def readDecimalFrac (dot : Bool) (r : Reader) : Option (List Char) × Reader :=
  if dot then
    match r.currChar with
    | some c =>
      if c.isDigit then
        let (f, r1) := readIntoUntil (fun c2 => !c2.isDigit) (r.input.length + 1) r []
        (some f, r1)
      else (some [], r)
    | none => (some [], r)
  else (none, r)

/-- Decimal arm of `Lexer::read_number` from `lexer.rs`: integer digits, an
optional `.` with optional fraction digits, then an optional exponent. -/
def readNumberDecimal (r : Reader) : (Except Error Token) × Reader :=
  let start := r.pos
  let (intPart, r1) := readIntoUntil (fun c => !c.isDigit) (r.input.length + 1) r []
  let (dot, r2) := Lexer.matches r1 '.'
  let (frac, r3) := readDecimalFrac dot r2
  match read_exp_part r3 with
  | (.ok exp, r4) =>
    (.ok (Token.new start r4.pos
      (if dot then .Number (.Float (some (String.mk intPart)) (frac.map String.mk) exp)
       else .Number (.DecimalInt (String.mk intPart) exp))), r4)
  | (.error e, r4) => (.error e, r4)

/-- Leading-`.` arm of `Lexer::read_number` from `lexer.rs`: fraction digits
then an optional exponent. -/
def readNumberDotFloat (r : Reader) : (Except Error Token) × Reader :=
  let start := r.pos
  let r1 := r.skip
  let (frac, r2) := readIntoUntil (fun c => !c.isDigit) (r1.input.length + 1) r1 []
  match read_exp_part r2 with
  | (.ok exp, r3) =>
    (.ok (Token.new start r3.pos (.Number (.Float none (some (String.mk frac)) exp))), r3)
  | (.error e, r3) => (.error e, r3)

/-- `Lexer::read_number` from `lexer.rs`: dispatch on the first two
characters, then reject an immediately following identifier-start
(`IdAfterNumber`) or digit (`DigitAfterNumber`).  The source panics when
called at end-of-input; `read_next_token` only calls it on a digit or on `.`
followed by a digit, so that arm is unreachable (modelled as an error). -/
def read_number (r : Reader) : (Except Error Token) × Reader :=
  let core : (Except Error Token) × Reader :=
    match r.currChar, r.nextChar with
    | some '0', some 'x' => read_hex_int r
    | some '0', some 'X' => read_hex_int r
    | some '0', some 'o' => read_oct_int r
    | some '0', some 'O' => read_oct_int r
    | some '0', some 'b' => read_bin_int r
    | some '0', some 'B' => read_bin_int r
    | some '0', some ch =>
      if ch.isDigit then
        let (t, r1) := read_deprecated_oct_int r
        (.ok t, r1)
      else readNumberDecimal r
    | some '.', _ => readNumberDotFloat r
    | some _, _ => readNumberDecimal r
    | none, _ => (.error (.IllegalChar '\x00'), r)
  match core with
  | (.ok result, r1) =>
    match r1.currChar with
    | some ch =>
      if isEsIdentifierStart ch then (.error (.IdAfterNumber ch), r1)
      else if ch.isDigit then (.error (.DigitAfterNumber ch), r1)
      else (.ok result, r1)
    | none => (.ok result, r1)
  | (.error e, r1) => (.error e, r1)

/-- Octal-digit loop of `Lexer::read_string_escape` from `lexer.rs`:
`for _ in 0..3`, consuming octal digits and accumulating `code*8 + digit`,
breaking before any digit that would push the value over 255. -/
def octEscapeLoop : Nat → Reader → Nat → List Char → List Char × Nat × Reader
  | 0, r, code, source => (source, code, r)
  | k + 1, r, code, source =>
    match r.currChar with
    | some ch =>
      if isEsOctDigit ch then
        let newCode := code * 8 + charToDigit ch
        if newCode > 255 then (source, code, r)
        else octEscapeLoop k r.skip newCode (source ++ [ch])
      else (source, code, r)
    | none => (source, code, r)

/-- `Lexer::read_string_escape` from `lexer.rs`: after the backslash, decode
legacy octal escapes, single-character escapes, `\xHH`, `\uHHHH`/`\u{H+}`,
line continuations, or copy the character verbatim; end-of-input after the
backslash is left for the caller to report. -/
def read_string_escape (r : Reader) (source value : List Char) :
    (Except Error (List Char × List Char)) × Reader :=
  let (c0, r0) := Lexer.reread r '\\'
  let source := source ++ [c0]
  match r0.currChar with
  | some ch =>
    if isEsOctDigit ch then
      let (source1, code, r1) := octEscapeLoop 3 r0 0 source
      (.ok (source1, value ++ [(charFromU32 code).getD '?']), r1)
    else if isEsSingleEscapeChar ch then
      (.ok (source ++ [ch], value ++ [unescape ch]), r0.skip)
    else if ch = 'x' then
      let source1 := source ++ ['x']
      match readHexDigitInto r0.skip source1 with
      | (.ok (d1, source2), r2) =>
        match readHexDigitInto r2 source2 with
        | (.ok (d2, source3), r3) =>
          (.ok (source3, value ++ [(charFromU32 (d1 * 16 + d2)).getD '?']), r3)
        | (.error e, r3) => (.error e, r3)
      | (.error e, r2) => (.error e, r2)
    else if ch = 'u' then
      let source1 := source ++ ['u']
      match readUnicodeEscapeSeq r0.skip source1 with
      | (.ok (code, source2), r2) =>
        (.ok (source2, value ++ [(charFromU32 code).getD '?']), r2)
      | (.error e, r2) => (.error e, r2)
    else if isEsNewline ch then
      let (source1, r1) := readNewlineInto r0 source
      (.ok (source1, value), r1)
    else
      (.ok (source ++ [ch], value ++ [ch]), r0.skip)
  | none => (.ok (source, value), r0)

/-- Main loop of `Lexer::read_string` from `lexer.rs`: copy until the quote,
a backslash or a line terminator; decode escapes; an unescaped line
terminator or end-of-input is `UnterminatedString`. -/
def readStringLoop (quote : Char) :
    Nat → Reader → List Char → List Char → (Except Error (List Char × List Char)) × Reader
  | 0, r, source, value => (.ok (source, value), r)
  | fuel + 1, r, source, value =>
    let (source1, value1, r1) :=
      readInto2Until (fun ch => ch = quote || ch = '\\' || isEsNewline ch)
        (r.input.length + 1) r source value
    match r1.currChar with
    | some '\\' =>
      match read_string_escape r1 source1 value1 with
      | (.ok (source2, value2), r2) => readStringLoop quote fuel r2 source2 value2
      | (.error e, r2) => (.error e, r2)
    | some ch =>
      if isEsNewline ch then (.error (.UnterminatedString (some ch)), r1)
      else (.ok (source1 ++ [quote], value1), r1.skip)
    | none => (.error (.UnterminatedString none), r1)

/-- `Lexer::read_string` from `lexer.rs`: read the quote, run the loop, and
build the string token with source text and decoded value. -/
def read_string (r : Reader) : (Except Error Token) × Reader :=
  let start := r.pos
  let (quote, r1) := Lexer.read r
  match readStringLoop quote (r1.input.length + 1) r1 [quote] [] with
  | (.ok (source, value), r2) =>
    (.ok (Token.new start r2.pos (.String ⟨some (String.mk source), String.mk value⟩)), r2)
  | (.error e, r2) => (.error e, r2)

/-- `Lexer::read_punc` from `lexer.rs`: one-character punctuator. -/
def read_punc (r : Reader) (value : TokenData) : Token × Reader :=
  let start := r.pos
  let r1 := r.skip
  (Token.new start r1.pos value, r1)

/-- `Lexer::read_punc2` from `lexer.rs`: two-character punctuator. -/
def read_punc2 (r : Reader) (value : TokenData) : Token × Reader :=
  let start := r.pos
  let r1 := r.skip.skip
  (Token.new start r1.pos value, r1)

/-- `Lexer::read_punc2_3` from `lexer.rs`: two consumed characters plus an
optional third. -/
def read_punc2_3 (r : Reader) (ch : Char) (value2 value3 : TokenData) : Token × Reader :=
  let start := r.pos
  let r1 := r.skip.skip
  let (m, r2) := Lexer.matches r1 ch
  (Token.new start r2.pos (if m then value3 else value2), r2)

/-- The leading loop of `Lexer::read_next_token` from `lexer.rs`: skip
whitespace, line-terminator runs (setting `found_newline`), line comments and
block comments (or-ing in whether the comment contained a newline), stopping
at the first character of the next token. -/
def skipWhitespaceAndComments : Nat → Reader → Bool → (Except Error Bool) × Reader
  | 0, r, foundNewline => (.ok foundNewline, r)
  | fuel + 1, r, foundNewline =>
    match r.currChar with
    | some ch =>
      if isEsWhitespace ch then
        skipWhitespaceAndComments fuel (skipWhitespace r) foundNewline
      else if isEsNewline ch then
        skipWhitespaceAndComments fuel (skipNewlines (r.input.length + 1) r) true
      else if ch = '/' && r.nextChar = some '/' then
        skipWhitespaceAndComments fuel (skipLineComment r) foundNewline
      else if ch = '/' && r.nextChar = some '*' then
        match skipBlockComment r with
        | (.ok fn, r1) => skipWhitespaceAndComments fuel r1 (fn || foundNewline)
        | (.error e, r1) => (.error e, r1)
      else (.ok foundNewline, r)
    | none => (.ok foundNewline, r)

/-- The dispatch of `Lexer::read_next_token` from `lexer.rs` on the first one
or two characters after whitespace and comments, in source order.  A leading
`/` is a regular expression whenever the shared context does not mark the
previous token as able to end an expression (`!self.cx.get().operator`),
before the `/=` lookahead is consulted. -/
def readNextTokenDispatch (operator : Bool) (r : Reader) : (Except Error Token) × Reader :=
  match r.currChar, r.nextChar with
  | some '/', c2 =>
    if !operator then read_regexp r
    else if c2 = some '=' then
      let (t, r1) := read_punc2 r .SlashAssign
      (.ok t, r1)
    else
      let (t, r1) := read_punc r .Slash
      (.ok t, r1)
  | some '.', c2 =>
    match c2 with
    | some ch =>
      if ch.isDigit then read_number r
      else
        let (t, r1) := read_punc r .Dot
        (.ok t, r1)
    | none =>
      let (t, r1) := read_punc r .Dot
      (.ok t, r1)
  | some '{', _ => let (t, r1) := read_punc r .LBrace; (.ok t, r1)
  | some '}', _ => let (t, r1) := read_punc r .RBrace; (.ok t, r1)
  | some '[', _ => let (t, r1) := read_punc r .LBrack; (.ok t, r1)
  | some ']', _ => let (t, r1) := read_punc r .RBrack; (.ok t, r1)
  | some '(', _ => let (t, r1) := read_punc r .LParen; (.ok t, r1)
  | some ')', _ => let (t, r1) := read_punc r .RParen; (.ok t, r1)
  | some ';', _ => let (t, r1) := read_punc r .Semi; (.ok t, r1)
  | some ':', _ => let (t, r1) := read_punc r .Colon; (.ok t, r1)
  | some ',', _ => let (t, r1) := read_punc r .Comma; (.ok t, r1)
  | some '<', some '<' => let (t, r1) := read_punc2_3 r '=' .LShift .LShiftAssign; (.ok t, r1)
  | some '<', some '=' => let (t, r1) := read_punc2 r .LEq; (.ok t, r1)
  | some '<', _ => let (t, r1) := read_punc r .LAngle; (.ok t, r1)
  | some '>', some '>' =>
    let start := r.pos
    let r1 := r.skip.skip
    match r1.currChar, r1.nextChar with
    | some '>', some '=' =>
      let r2 := r1.skip.skip
      (.ok (Token.new start r2.pos .URShiftAssign), r2)
    | some '>', _ =>
      let r2 := r1.skip
      (.ok (Token.new start r2.pos .URShift), r2)
    | some '=', _ =>
      let r2 := r1.skip
      (.ok (Token.new start r2.pos .RShiftAssign), r2)
    | _, _ => (.ok (Token.new start r1.pos .RShift), r1)
  | some '>', some '=' => let (t, r1) := read_punc2 r .GEq; (.ok t, r1)
  | some '>', _ => let (t, r1) := read_punc r .RAngle; (.ok t, r1)
  | some '=', some '=' => let (t, r1) := read_punc2_3 r '=' .Eq .StrictEq; (.ok t, r1)
  | some '=', _ => let (t, r1) := read_punc r .Assign; (.ok t, r1)
  | some '+', some '+' => let (t, r1) := read_punc2 r .Inc; (.ok t, r1)
  | some '+', some '=' => let (t, r1) := read_punc2 r .PlusAssign; (.ok t, r1)
  | some '+', _ => let (t, r1) := read_punc r .Plus; (.ok t, r1)
  | some '-', some '-' => let (t, r1) := read_punc2 r .Dec; (.ok t, r1)
  | some '-', some '=' => let (t, r1) := read_punc2 r .MinusAssign; (.ok t, r1)
  | some '-', _ => let (t, r1) := read_punc r .Minus; (.ok t, r1)
  | some '*', some '=' => let (t, r1) := read_punc2 r .StarAssign; (.ok t, r1)
  | some '*', _ => let (t, r1) := read_punc r .Star; (.ok t, r1)
  | some '%', some '=' => let (t, r1) := read_punc2 r .ModAssign; (.ok t, r1)
  | some '%', _ => let (t, r1) := read_punc r .Mod; (.ok t, r1)
  | some '^', some '=' => let (t, r1) := read_punc2 r .BitXorAssign; (.ok t, r1)
  | some '^', _ => let (t, r1) := read_punc r .BitXor; (.ok t, r1)
  | some '&', some '&' => let (t, r1) := read_punc2 r .LogicalAnd; (.ok t, r1)
  | some '&', some '=' => let (t, r1) := read_punc2 r .BitAndAssign; (.ok t, r1)
  | some '&', _ => let (t, r1) := read_punc r .BitAnd; (.ok t, r1)
  | some '|', some '|' => let (t, r1) := read_punc2 r .LogicalOr; (.ok t, r1)
  | some '|', some '=' => let (t, r1) := read_punc2 r .BitOrAssign; (.ok t, r1)
  | some '|', _ => let (t, r1) := read_punc r .BitOr; (.ok t, r1)
  | some '~', _ => let (t, r1) := read_punc r .Tilde; (.ok t, r1)
  | some '!', some '=' => let (t, r1) := read_punc2_3 r '=' .NEq .StrictNEq; (.ok t, r1)
  | some '!', _ => let (t, r1) := read_punc r .Bang; (.ok t, r1)
  | some '?', _ => let (t, r1) := read_punc r .Question; (.ok t, r1)
  | some '"', _ => read_string r
  | some '\'', _ => read_string r
  | some ch, _ =>
    if ch.isDigit then read_number r
    else if isEsIdentifierStart ch then read_word r
    else if ch = '\\' then read_word r
    else (.error (.IllegalChar ch), r)
  | none, _ => (.ok (Token.new r.pos r.pos .EOF), r)

/-- `Lexer::read_next_token` from `lexer.rs`: skip whitespace and comments,
dispatch, and stamp the produced token with the recorded newline flag. -/
def read_next_token (operator : Bool) (r : Reader) : (Except Error Token) × Reader :=
  match skipWhitespaceAndComments (r.input.length + 1) r false with
  | (.ok foundNewline, r1) =>
    match readNextTokenDispatch operator r1 with
    | (.ok t, r2) => (.ok { t with newline := foundNewline }, r2)
    | (.error e, r2) => (.error e, r2)
  | (.error e, r1) => (.error e, r1)

/-- State of a `Lexer`: the character source plus the lookahead buffer.  The
buffer is modelled from the spec (section 4.2): `lookahead.rs` is not in the
sources; it holds zero or one already-scanned token.  The shared
disambiguation context (`Rc<Cell<Context>>`) is passed as the `operator`
argument of each operation, per the reimplementation note of spec section 9;
the scanner itself never writes it. -/
structure LexerState where
  reader : Reader
  lookahead : Option Token
deriving Repr, DecidableEq

/-- A lexer at the start of the given source text with an empty buffer. -/
def mkLexer (s : String) : LexerState :=
  ⟨mkReader s, none⟩

/-- `Lexer::peek_token` from `lexer.rs`: scan into the buffer when it is
empty (the failed scan pushes nothing), then return the buffered token
without consuming it. -/
def peek_token (operator : Bool) (s : LexerState) : (Except Error Token) × LexerState :=
  match s.lookahead with
  | some t => (.ok t, s)
  | none =>
    match read_next_token operator s.reader with
    | (.ok t, r1) => (.ok t, ⟨r1, some t⟩)
    | (.error e, r1) => (.error e, ⟨r1, none⟩)

/-- `Lexer::read_token` from `lexer.rs`: return and remove the buffered
token, or scan a fresh one. -/
def read_token (operator : Bool) (s : LexerState) : (Except Error Token) × LexerState :=
  match s.lookahead with
  | none =>
    match read_next_token operator s.reader with
    | (.ok t, r1) => (.ok t, ⟨r1, none⟩)
    | (.error e, r1) => (.error e, ⟨r1, none⟩)
  | some t => (.ok t, ⟨s.reader, none⟩)

/-- `Lexer::unread_token` from `lexer.rs`, via `Buffer::unread_token`.
Modelled from the spec (section 4.2): pushing into an occupied buffer is a
contract violation (the buffer never holds more than one token); the model
stores the token. -/
def unread_token (t : Token) (s : LexerState) : LexerState :=
  { s with lookahead := some t }

/-- The `Iterator` implementation for `Lexer` from `lexer.rs`: one
`read_token` per item; the end-of-input token and any error both end the
iteration, and the error value is discarded. -/
def lexerNext (operator : Bool) (s : LexerState) : Option (Token × LexerState) :=
  match read_token operator s with
  | (.ok t, s1) => if t.value = .EOF then none else some (t, s1)
  | (.error _, _) => none

/-- The multi-character punctuators of the token model, paired with their
source text (the texts scanned by `read_punc2`, `read_punc2_3` and the `>>`
arm of `read_next_token`; `/=` requires the operator context). -/
def puncCases : List (String × TokenData) :=
  [("<<", .LShift), ("<<=", .LShiftAssign), ("<=", .LEq),
   (">>", .RShift), (">>>", .URShift), (">>>=", .URShiftAssign),
   (">>=", .RShiftAssign), (">=", .GEq),
   ("==", .Eq), ("===", .StrictEq),
   ("++", .Inc), ("+=", .PlusAssign), ("--", .Dec), ("-=", .MinusAssign),
   ("*=", .StarAssign), ("%=", .ModAssign), ("^=", .BitXorAssign),
   ("&&", .LogicalAnd), ("&=", .BitAndAssign),
   ("||", .LogicalOr), ("|=", .BitOrAssign),
   ("!=", .NEq), ("!==", .StrictNEq), ("/=", .SlashAssign)]

/-- Maximal-munch check for one punctuator: lexing exactly its text (in
operator context) yields a first token of the paired kind and then the
end-of-input token, so the text is never split into shorter tokens. -/
def puncCheck (p : String × TokenData) : Bool :=
  match read_token true (mkLexer p.1) with
  | (.ok t, s1) =>
    if t.value = p.2 then
      match read_token true s1 with
      | (.ok t2, _) => decide (t2.value = .EOF)
      | (.error _, _) => false
    else false
  | (.error _, _) => false

/-- Helper: skipping from a nonempty input drops its first character. -/
theorem Reader.skip_input_cons (r : Reader) (c : Char) (rest : List Char)
    (h : r.input = c :: rest) : r.skip.input = rest := by
  simp only [Reader.skip, h]
  split <;> rfl

/-- Helper: the current character is the head of the input. -/
theorem Reader.currChar_cons (r : Reader) (c : Char) (rest : List Char)
    (h : r.input = c :: rest) : r.currChar = some c := by
  simp [Reader.currChar, h]

/-- Helper: the lookahead character is the head of the input's tail. -/
theorem Reader.nextChar_cons (r : Reader) (c : Char) (rest : List Char)
    (h : r.input = c :: rest) : r.nextChar = rest.head? := by
  simp [Reader.nextChar, h]

/-- Helper: with fuel at least the input length, `readIntoUntil` appends
exactly the longest prefix of characters failing the predicate and leaves
the corresponding suffix in the reader. -/
theorem readIntoUntil_spec (p : Char → Bool) :
    ∀ (fuel : Nat) (r : Reader) (s : List Char), r.input.length ≤ fuel →
      (readIntoUntil p fuel r s).1 = s ++ r.input.takeWhile (fun c => !p c) ∧
        (readIntoUntil p fuel r s).2.input = r.input.dropWhile (fun c => !p c) := by
  intro fuel
  induction fuel with
  | zero =>
    intro r s hlen
    have h0 : r.input = [] := List.length_eq_zero.mp (Nat.le_zero.mp hlen)
    simp [readIntoUntil, h0]
  | succ n ih =>
    intro r s hlen
    cases hc : r.input with
    | nil => simp [readIntoUntil, Reader.currChar, hc]
    | cons c rest =>
      have hcc : r.currChar = some c := Reader.currChar_cons r c rest hc
      by_cases hp : p c
      · simp [readIntoUntil, hcc, hp, hc]
      · have hskip : r.skip.input = rest := Reader.skip_input_cons r c rest hc
        have hlen' : r.skip.input.length ≤ n := by
          rw [hskip]
          have := hlen
          rw [hc] at this
          simpa using Nat.lt_succ_iff.mp (Nat.lt_of_lt_of_le (Nat.lt_succ_self _) this)
        have hrec := ih r.skip (s ++ [c]) hlen'
        rw [show readIntoUntil p (n + 1) r s = readIntoUntil p n r.skip (s ++ [c]) by
          simp [readIntoUntil, hcc, hp]]
        constructor
        · rw [hrec.1, hskip]
          simp [List.takeWhile_cons, hp]
        · rw [hrec.2, hskip]
          simp [List.dropWhile_cons, hp]

/-- Helper: the head of `dropWhile p` never satisfies `p`. -/
theorem head_dropWhile_not (p : Char → Bool) (l : List Char) (c : Char)
    (h : (l.dropWhile p).head? = some c) : p c = false := by
  induction l with
  | nil => simp [List.dropWhile] at h
  | cons a l ih =>
    by_cases hp : p a
    · rw [List.dropWhile_cons_of_pos hp] at h
      exact ih h
    · rw [List.dropWhile_cons_of_neg hp] at h
      simp only [List.head?_cons, Option.some.injEq] at h
      rw [← h]
      exact Bool.of_not_eq_true hp

/-- Helper: full behaviour of `read_deprecated_oct_int` on an input starting
`0` then a digit: the token's payload is the all-octal `RadixInt` or the
`0`-prefixed `DecimalInt` over the run of decimal digits after the `0`, and
the reader is left on the first non-digit. -/
theorem read_deprecated_oct_int_spec (r : Reader) (d : Char) (rest : List Char)
    (h : r.input = '0' :: d :: rest) :
    (read_deprecated_oct_int r).1.value =
      .Number (if ((d :: rest).takeWhile Char.isDigit).all isEsOctDigit then
          .RadixInt (.Oct none) (String.mk ((d :: rest).takeWhile Char.isDigit))
        else .DecimalInt (String.mk ('0' :: (d :: rest).takeWhile Char.isDigit)) none) ∧
      (read_deprecated_oct_int r).2.input = (d :: rest).dropWhile Char.isDigit := by
  have hskip : r.skip.input = d :: rest := Reader.skip_input_cons r '0' (d :: rest) h
  have hspec := readIntoUntil_spec (fun ch => !ch.isDigit)
    (r.skip.input.length + 1) r.skip [] (Nat.le_succ _)
  have htake : r.skip.input.takeWhile (fun c => !(!c.isDigit)) =
      (d :: rest).takeWhile Char.isDigit := by
    rw [hskip]
    simp [Bool.not_not]
  have hdrop : r.skip.input.dropWhile (fun c => !(!c.isDigit)) =
      (d :: rest).dropWhile Char.isDigit := by
    rw [hskip]
    simp [Bool.not_not]
  unfold read_deprecated_oct_int
  constructor
  · show (Token.new _ _ _).value = _
    show (if ((readIntoUntil (fun ch => !ch.isDigit) (r.skip.input.length + 1) r.skip []).1).all
        isEsOctDigit then (TokenData.Number (.RadixInt (.Oct none) (String.mk _)))
      else _) = _
    rw [hspec.1]
    simp only [List.nil_append]
    rw [htake]
    split <;> rfl
  · show (readIntoUntil (fun ch => !ch.isDigit) (r.skip.input.length + 1) r.skip []).2.input = _
    rw [hspec.2, hdrop]

/-- Helper: a present current character is the head of a nonempty input. -/
theorem Reader.exists_cons_of_currChar (r : Reader) (c : Char) (hc : r.currChar = some c) :
    ∃ rest, r.input = c :: rest := by
  cases hi : r.input with
  | nil =>
    rw [Reader.currChar, hi] at hc
    exact Option.noConfusion hc
  | cons a rest =>
    have h2 := Reader.currChar_cons r a rest hi
    rw [h2] at hc
    injection hc with hc
    subst hc
    exact ⟨rest, rfl⟩

/-- Helper: no current character means the input is exhausted. -/
theorem Reader.input_nil_of_currChar_none (r : Reader) (hc : r.currChar = none) :
    r.input = [] := by
  cases hi : r.input with
  | nil => rfl
  | cons a rest =>
    rw [Reader.currChar_cons r a rest hi] at hc
    exact Option.noConfusion hc

/-- Helper: skipping never decreases the offset. -/
theorem Reader.skip_offset_le (r : Reader) : r.pos.offset ≤ r.skip.pos.offset := by
  unfold Reader.skip
  split
  · exact le_refl _
  · split <;> simp

/-- Helper: skipping from a nonempty input strictly increases the offset. -/
theorem Reader.skip_offset_lt (r : Reader) (c : Char) (hc : r.currChar = some c) :
    r.pos.offset < r.skip.pos.offset := by
  obtain ⟨rest, hi⟩ := Reader.exists_cons_of_currChar r c hc
  simp only [Reader.skip, hi]
  split <;> simp

/-- Helper: `Lexer.matches` never decreases the offset. -/
theorem Lexer.matches_offset_le (r : Reader) (ch : Char) :
    r.pos.offset ≤ (Lexer.matches r ch).2.pos.offset := by
  unfold Lexer.matches
  split
  · exact Reader.skip_offset_le r
  · exact le_refl _

/-- Helper: `skipUntil` never decreases the offset. -/
theorem skipUntil_offset_le (p : Char → Bool) :
    ∀ (fuel : Nat) (r : Reader), r.pos.offset ≤ (skipUntil p fuel r).pos.offset := by
  intro fuel
  induction fuel with
  | zero => intro r; exact le_refl _
  | succ n ih =>
    intro r
    simp only [skipUntil]
    split
    · split
      · exact le_refl _
      · exact le_trans (Reader.skip_offset_le r) (ih r.skip)
    · exact le_refl _

/-- Helper: `readIntoUntil` never decreases the offset. -/
theorem readIntoUntil_offset_le (p : Char → Bool) :
    ∀ (fuel : Nat) (r : Reader) (s : List Char),
      r.pos.offset ≤ (readIntoUntil p fuel r s).2.pos.offset := by
  intro fuel
  induction fuel with
  | zero => intro r s; exact le_refl _
  | succ n ih =>
    intro r s
    simp only [readIntoUntil]
    split
    · split
      · exact le_refl _
      · exact le_trans (Reader.skip_offset_le r) (ih r.skip _)
    · exact le_refl _

/-- Helper: `readInto2Until` never decreases the offset. -/
theorem readInto2Until_offset_le (p : Char → Bool) :
    ∀ (fuel : Nat) (r : Reader) (s1 s2 : List Char),
      r.pos.offset ≤ (readInto2Until p fuel r s1 s2).2.2.pos.offset := by
  intro fuel
  induction fuel with
  | zero => intro r s1 s2; exact le_refl _
  | succ n ih =>
    intro r s1 s2
    simp only [readInto2Until]
    split
    · split
      · exact le_refl _
      · exact le_trans (Reader.skip_offset_le r) (ih r.skip _ _)
    · exact le_refl _

/-- Helper: `skipNewlines` never decreases the offset. -/
theorem skipNewlines_offset_le :
    ∀ (fuel : Nat) (r : Reader), r.pos.offset ≤ (skipNewlines fuel r).pos.offset := by
  intro fuel
  induction fuel with
  | zero => intro r; exact le_refl _
  | succ n ih =>
    intro r
    simp only [skipNewlines]
    split
    · exact le_trans (Reader.skip_offset_le r)
        (le_trans (Reader.skip_offset_le r.skip) (ih r.skip.skip))
    · split
      · exact le_trans (Reader.skip_offset_le r) (ih r.skip)
      · exact le_refl _
    · exact le_refl _

/-- Helper: `readNewlineInto` never decreases the offset. -/
theorem readNewlineInto_offset_le (r : Reader) (s : List Char) :
    r.pos.offset ≤ (readNewlineInto r s).2.pos.offset := by
  unfold readNewlineInto
  split
  · exact le_trans (Reader.skip_offset_le r) (Reader.skip_offset_le r.skip)
  · exact Reader.skip_offset_le r

/-- Helper: `readDigitInto` never decreases the offset. -/
theorem readDigitInto_offset_le (r : Reader) (s : List Char) (radix : Nat)
    (p : Char → Bool) (e : Error) :
    r.pos.offset ≤ (readDigitInto r s radix p e).2.pos.offset := by
  unfold readDigitInto
  split
  · split
    · exact Reader.skip_offset_le r
    · exact le_refl _
  · exact le_refl _

/-- Helper: `readHexDigitInto` never decreases the offset. -/
theorem readHexDigitInto_offset_le (r : Reader) (s : List Char) :
    r.pos.offset ≤ (readHexDigitInto r s).2.pos.offset :=
  readDigitInto_offset_le r s 16 isEsHexDigit .MissingHexDigits

/-- Helper: `octEscapeLoop` never decreases the offset. -/
theorem octEscapeLoop_offset_le :
    ∀ (n : Nat) (r : Reader) (code : Nat) (src : List Char),
      r.pos.offset ≤ (octEscapeLoop n r code src).2.2.pos.offset := by
  intro n
  induction n with
  | zero => intro r code src; exact le_refl _
  | succ n ih =>
    intro r code src
    simp only [octEscapeLoop]
    split
    · split
      · split
        · exact le_refl _
        · exact le_trans (Reader.skip_offset_le r) (ih r.skip _ _)
      · exact le_refl _
    · exact le_refl _

/-- Helper: `readHex4` never decreases the offset. -/
theorem readHex4_offset_le :
    ∀ (k place code : Nat) (r : Reader) (s : List Char),
      r.pos.offset ≤ (readHex4 k place code r s).2.pos.offset := by
  intro k
  induction k with
  | zero => intro place code r s; exact le_refl _
  | succ n ih =>
    intro place code r s
    simp only [readHex4]
    have h1 := readHexDigitInto_offset_le r s
    rcases hd : readHexDigitInto r s with ⟨res, r1⟩
    rw [hd] at h1
    cases res with
    | ok ds =>
      obtain ⟨d, s1⟩ := ds
      exact le_trans h1 (ih _ _ r1 s1)
    | error e => exact h1

/-- Helper: `readUnicodeBraceLoop` never decreases the offset. -/
theorem readUnicodeBraceLoop_offset_le :
    ∀ (fuel : Nat) (r : Reader) (s : List Char) (ds : List Nat),
      r.pos.offset ≤ (readUnicodeBraceLoop fuel r s ds).2.pos.offset := by
  intro fuel
  induction fuel with
  | zero => intro r s ds; exact le_refl _
  | succ n ih =>
    intro r s ds
    simp only [readUnicodeBraceLoop]
    split
    · exact le_refl _
    · exact le_refl _
    · have h1 := readHexDigitInto_offset_le r s
      rcases hd : readHexDigitInto r s with ⟨res, r1⟩
      rw [hd] at h1
      cases res with
      | ok pr =>
        obtain ⟨d, s1⟩ := pr
        exact le_trans h1 (ih r1 s1 _)
      | error e => exact h1

/-- Helper: `readUnicodeEscapeSeq` never decreases the offset. -/
theorem readUnicodeEscapeSeq_offset_le (r : Reader) (s : List Char) :
    r.pos.offset ≤ (readUnicodeEscapeSeq r s).2.pos.offset := by
  unfold readUnicodeEscapeSeq
  have h0 := Lexer.matches_offset_le r '{'
  rcases hm : Lexer.matches r '{' with ⟨m, r0⟩
  rw [hm] at h0
  dsimp only
  split
  · split
    · rename_i d0 s1 r1 heq
      have h1 := readHexDigitInto_offset_le r0 (s ++ ['{'])
      rw [heq] at h1
      split
      · rename_i digits s2 r2 heq2
        have h2 := readUnicodeBraceLoop_offset_le (r1.input.length + 1) r1 s1 [d0]
        rw [heq2] at h2
        exact le_trans h0 (le_trans h1 (le_trans h2 (Reader.skip_offset_le r2)))
      · rename_i e r2 heq2
        have h2 := readUnicodeBraceLoop_offset_le (r1.input.length + 1) r1 s1 [d0]
        rw [heq2] at h2
        exact le_trans h0 (le_trans h1 h2)
    · rename_i e r1 heq
      have h1 := readHexDigitInto_offset_le r0 (s ++ ['{'])
      rw [heq] at h1
      exact le_trans h0 h1
  · exact le_trans h0 (readHex4_offset_le 4 0x1000 0 r0 s)

/-- Helper: `readWordEscape` never decreases the offset. -/
theorem readWordEscape_offset_le (r : Reader) (s : List Char) :
    r.pos.offset ≤ (readWordEscape r s).2.pos.offset := by
  unfold readWordEscape Lexer.reread
  split
  · dsimp only
    split
    · rename_i code s2 r1 heq
      have h2 := readUnicodeEscapeSeq_offset_le r.skip []
      rw [heq] at h2
      split
      · exact le_trans (Reader.skip_offset_le r) h2
      · exact le_trans (Reader.skip_offset_le r) h2
    · rename_i e r1 heq
      have h2 := readUnicodeEscapeSeq_offset_le r.skip []
      rw [heq] at h2
      exact le_trans (Reader.skip_offset_le r) h2
  · exact le_refl _

/-- Helper: `readWordPartsLoop` never decreases the offset. -/
theorem readWordPartsLoop_offset_le :
    ∀ (fuel : Nat) (r : Reader) (s : List Char),
      r.pos.offset ≤ (readWordPartsLoop fuel r s).2.pos.offset := by
  intro fuel
  induction fuel with
  | zero => intro r s; exact le_refl _
  | succ n ih =>
    intro r s
    simp only [readWordPartsLoop]
    split
    · split
      · exact le_refl _
      · dsimp only [Lexer.read]
        split
        · have h1 := Reader.skip_offset_le r
          have h2 := readWordEscape_offset_le r.skip s
          rcases hw : readWordEscape r.skip s with ⟨res, r1⟩
          rw [hw] at h2
          cases res with
          | ok s1 => exact le_trans h1 (le_trans h2 (ih r1 s1))
          | error e => exact le_trans h1 h2
        · exact le_trans (Reader.skip_offset_le r) (ih r.skip _)
    · exact le_refl _

/-- Helper: `readWordParts` never decreases the offset. -/
theorem readWordParts_offset_le (r : Reader) :
    r.pos.offset ≤ (readWordParts r).2.pos.offset :=
  readWordPartsLoop_offset_le (r.input.length + 1) r []

/-- Helper: `readRegexpBackslash` never decreases the offset. -/
theorem readRegexpBackslash_offset_le (r : Reader) (s : List Char) :
    r.pos.offset ≤ (readRegexpBackslash r s).2.pos.offset := by
  unfold readRegexpBackslash Lexer.reread
  dsimp only
  split
  · split
    · exact Reader.skip_offset_le r
    · exact le_trans (Reader.skip_offset_le r) (Reader.skip_offset_le r.skip)
  · exact Reader.skip_offset_le r

/-- Helper: `readRegexpClassBody` never decreases the offset. -/
theorem readRegexpClassBody_offset_le :
    ∀ (fuel : Nat) (r : Reader) (s : List Char),
      r.pos.offset ≤ (readRegexpClassBody fuel r s).2.pos.offset := by
  intro fuel
  induction fuel with
  | zero => intro r s; exact le_refl _
  | succ n ih =>
    intro r s
    simp only [readRegexpClassBody]
    split
    · exact le_refl _
    · exact le_refl _
    · have h1 := readRegexpBackslash_offset_le r s
      rcases hb : readRegexpBackslash r s with ⟨res, r1⟩
      rw [hb] at h1
      cases res with
      | ok s1 => exact le_trans h1 (ih r1 s1)
      | error e => exact h1
    · exact le_trans (Reader.skip_offset_le r) (ih r.skip _)

/-- Helper: `readRegexpClass` never decreases the offset. -/
theorem readRegexpClass_offset_le (r : Reader) (s : List Char) :
    r.pos.offset ≤ (readRegexpClass r s).2.pos.offset := by
  unfold readRegexpClass Lexer.reread
  dsimp only
  have h1 := Reader.skip_offset_le r
  have h2 := readRegexpClassBody_offset_le (r.skip.input.length + 1) r.skip (s ++ ['['])
  rcases hb : readRegexpClassBody (r.skip.input.length + 1) r.skip (s ++ ['[']) with ⟨res, r1⟩
  rw [hb] at h2
  cases res with
  | ok s1 => exact le_trans h1 (le_trans h2 (Reader.skip_offset_le r1))
  | error e => exact le_trans h1 h2

/-- Helper: `readRegexpBody` never decreases the offset. -/
theorem readRegexpBody_offset_le :
    ∀ (fuel : Nat) (r : Reader) (s : List Char),
      r.pos.offset ≤ (readRegexpBody fuel r s).2.pos.offset := by
  intro fuel
  induction fuel with
  | zero => intro r s; exact le_refl _
  | succ n ih =>
    intro r s
    simp only [readRegexpBody]
    split
    · exact le_refl _
    · exact le_refl _
    · have h1 := readRegexpBackslash_offset_le r s
      rcases hb : readRegexpBackslash r s with ⟨res, r1⟩
      rw [hb] at h1
      cases res with
      | ok s1 => exact le_trans h1 (ih r1 s1)
      | error e => exact h1
    · have h1 := readRegexpClass_offset_le r s
      rcases hb : readRegexpClass r s with ⟨res, r1⟩
      rw [hb] at h1
      cases res with
      | ok s1 => exact le_trans h1 (ih r1 s1)
      | error e => exact h1
    · split
      · exact le_refl _
      · exact le_trans (Reader.skip_offset_le r) (ih r.skip _)

/-- Helper: `readExpSign` never decreases the offset. -/
theorem readExpSign_offset_le (r : Reader) :
    r.pos.offset ≤ (readExpSign r).2.pos.offset := by
  unfold readExpSign
  split
  · exact Reader.skip_offset_le r
  · exact Reader.skip_offset_le r
  · exact le_refl _

/-- Helper: `readExpRest` never decreases the offset. -/
theorem readExpRest_offset_le (e : CharCase) (r : Reader) :
    r.pos.offset ≤ (readExpRest e r).2.pos.offset := by
  unfold readExpRest
  have h1 := readExpSign_offset_le r
  rcases hs : readExpSign r with ⟨sign, r1⟩
  rw [hs] at h1
  dsimp only
  split
  · split
    · exact h1
    · exact le_trans h1 (readIntoUntil_offset_le _ _ r1 [])
  · exact h1

/-- Helper: `read_exp_part` never decreases the offset. -/
theorem read_exp_part_offset_le (r : Reader) :
    r.pos.offset ≤ (read_exp_part r).2.pos.offset := by
  unfold read_exp_part
  split
  · exact le_trans (Reader.skip_offset_le r) (readExpRest_offset_le _ r.skip)
  · exact le_trans (Reader.skip_offset_le r) (readExpRest_offset_le _ r.skip)
  · exact le_refl _

/-- Helper: `read_string_escape` never decreases the offset. -/
theorem read_string_escape_offset_le (r : Reader) (source value : List Char) :
    r.pos.offset ≤ (read_string_escape r source value).2.pos.offset := by
  unfold read_string_escape Lexer.reread
  dsimp only
  split
  · split
    · exact le_trans (Reader.skip_offset_le r)
        (octEscapeLoop_offset_le 3 r.skip 0 (source ++ ['\\']))
    · split
      · exact le_trans (Reader.skip_offset_le r) (Reader.skip_offset_le r.skip)
      · split
        · split
          · rename_i d1 s2 r2 heq
            have h1 := readHexDigitInto_offset_le r.skip.skip (source ++ ['\\'] ++ ['x'])
            rw [heq] at h1
            split
            · rename_i d2 s3 r3 heq2
              have h2 := readHexDigitInto_offset_le r2 s2
              rw [heq2] at h2
              exact le_trans (Reader.skip_offset_le r)
                (le_trans (Reader.skip_offset_le r.skip) (le_trans h1 h2))
            · rename_i e r3 heq2
              have h2 := readHexDigitInto_offset_le r2 s2
              rw [heq2] at h2
              exact le_trans (Reader.skip_offset_le r)
                (le_trans (Reader.skip_offset_le r.skip) (le_trans h1 h2))
          · rename_i e r2 heq
            have h1 := readHexDigitInto_offset_le r.skip.skip (source ++ ['\\'] ++ ['x'])
            rw [heq] at h1
            exact le_trans (Reader.skip_offset_le r)
              (le_trans (Reader.skip_offset_le r.skip) h1)
        · split
          · split
            · rename_i code s2 r2 heq
              have h1 := readUnicodeEscapeSeq_offset_le r.skip.skip (source ++ ['\\'] ++ ['u'])
              rw [heq] at h1
              exact le_trans (Reader.skip_offset_le r)
                (le_trans (Reader.skip_offset_le r.skip) h1)
            · rename_i e r2 heq
              have h1 := readUnicodeEscapeSeq_offset_le r.skip.skip (source ++ ['\\'] ++ ['u'])
              rw [heq] at h1
              exact le_trans (Reader.skip_offset_le r)
                (le_trans (Reader.skip_offset_le r.skip) h1)
          · split
            · exact le_trans (Reader.skip_offset_le r)
                (readNewlineInto_offset_le r.skip (source ++ ['\\']))
            · exact le_trans (Reader.skip_offset_le r) (Reader.skip_offset_le r.skip)
  · exact Reader.skip_offset_le r

/-- Helper: `readStringLoop` never decreases the offset. -/
theorem readStringLoop_offset_le (quote : Char) :
    ∀ (fuel : Nat) (r : Reader) (source value : List Char),
      r.pos.offset ≤ (readStringLoop quote fuel r source value).2.pos.offset := by
  intro fuel
  induction fuel with
  | zero => intro r source value; exact le_refl _
  | succ n ih =>
    intro r source value
    simp only [readStringLoop]
    have h0 := readInto2Until_offset_le (fun ch => ch = quote || ch = '\\' || isEsNewline ch)
      (r.input.length + 1) r source value
    rcases h2u : readInto2Until (fun ch => ch = quote || ch = '\\' || isEsNewline ch)
      (r.input.length + 1) r source value with ⟨s1, v1, r1⟩
    rw [h2u] at h0
    dsimp only
    split
    · split
      · rename_i s2 v2 r2 heq
        have h1 := read_string_escape_offset_le r1 s1 v1
        rw [heq] at h1
        exact le_trans h0 (le_trans h1 (ih r2 s2 v2))
      · rename_i e r2 heq
        have h1 := read_string_escape_offset_le r1 s1 v1
        rw [heq] at h1
        exact le_trans h0 h1
    · split
      · exact h0
      · exact le_trans h0 (Reader.skip_offset_le r1)
    · exact h0

/-- Helper: `readIntoUntil` with a current character failing the predicate
strictly advances the offset. -/
theorem readIntoUntil_strict (p : Char → Bool) (fuel : Nat) (r : Reader) (s : List Char)
    (c : Char) (hc : r.currChar = some c) (hp : p c = false) :
    r.pos.offset < (readIntoUntil p (fuel + 1) r s).2.pos.offset := by
  simp only [readIntoUntil]
  rw [hc]
  dsimp only
  simp only [hp, Bool.false_eq_true, if_false]
  exact lt_of_lt_of_le (Reader.skip_offset_lt r c hc) (readIntoUntil_offset_le p fuel r.skip _)

/-- Helper: `readWordParts` on an identifier-start or backslash strictly
advances the offset. -/
theorem readWordParts_strict (r : Reader) (c : Char) (hc : r.currChar = some c)
    (hcont : c = '\\' ∨ isEsIdentifierContinue c = true) :
    r.pos.offset < (readWordParts r).2.pos.offset := by
  unfold readWordParts
  simp only [readWordPartsLoop]
  rw [hc]
  dsimp only [Lexer.read, Reader.currChar]
  have hpred : (decide ¬c = '\\' && !isEsIdentifierContinue c) = false := by
    rcases hcont with hh | hh
    · subst hh; simp
    · simp [hh]
  simp only [hpred, Bool.false_eq_true, if_false]
  dsimp only [Option.getD]
  split
  · split
    · rename_i s1 r1 heq
      have h1 := readWordEscape_offset_le r.skip []
      rw [heq] at h1
      have h2 := readWordPartsLoop_offset_le r.input.length r1 s1
      exact lt_of_lt_of_le (Reader.skip_offset_lt r c hc) (le_trans h1 h2)
    · rename_i e r1 heq
      have h1 := readWordEscape_offset_le r.skip []
      rw [heq] at h1
      exact lt_of_lt_of_le (Reader.skip_offset_lt r c hc) h1
  · exact lt_of_lt_of_le (Reader.skip_offset_lt r c hc)
      (readWordPartsLoop_offset_le r.input.length r.skip _)

/-- Helper: span and consumption facts for a successful `read_punc`. -/
theorem read_punc_spec (r : Reader) (v : TokenData) (c : Char) (hc : r.currChar = some c) :
    read_punc r v = (Token.new r.pos r.skip.pos v, r.skip) ∧
      r.pos.offset < r.skip.pos.offset :=
  ⟨rfl, Reader.skip_offset_lt r c hc⟩

/-- Helper: span and consumption facts for a successful `read_punc2`. -/
theorem read_punc2_spec (r : Reader) (v : TokenData) (c : Char) (hc : r.currChar = some c) :
    read_punc2 r v = (Token.new r.pos r.skip.skip.pos v, r.skip.skip) ∧
      r.pos.offset < r.skip.skip.pos.offset :=
  ⟨rfl, lt_of_lt_of_le (Reader.skip_offset_lt r c hc) (Reader.skip_offset_le r.skip)⟩

/-- Helper: span and consumption facts for a successful `read_punc2_3`. -/
theorem read_punc2_3_spec (r : Reader) (ch : Char) (v2 v3 : TokenData) (c : Char)
    (hc : r.currChar = some c) :
    read_punc2_3 r ch v2 v3 =
      (Token.new r.pos (Lexer.matches r.skip.skip ch).2.pos
        (if (Lexer.matches r.skip.skip ch).1 then v3 else v2),
        (Lexer.matches r.skip.skip ch).2) ∧
      r.pos.offset < (Lexer.matches r.skip.skip ch).2.pos.offset :=
  ⟨rfl, lt_of_lt_of_le (Reader.skip_offset_lt r c hc)
    (le_trans (Reader.skip_offset_le r.skip) (Lexer.matches_offset_le r.skip.skip ch))⟩

/-- Helper: a successful `read_regexp` produces a non-end-of-input token
spanning from the entry position to the final position, strictly advancing
the offset. -/
theorem read_regexp_spec (r r' : Reader) (t : Token) (c : Char)
    (hc : r.currChar = some c) (h : read_regexp r = (.ok t, r')) :
    t.value ≠ .EOF ∧ t.location.start = r.pos ∧ t.location.stop = r'.pos ∧
      r.pos.offset < r'.pos.offset := by
  unfold read_regexp Lexer.reread at h
  dsimp only at h
  split at h
  · rename_i s r1 heq
    split at h
    · rename_i flags r3 heq2
      simp only [Prod.mk.injEq, Except.ok.injEq] at h
      obtain ⟨ht, hr⟩ := h
      have hb := readRegexpBody_offset_le (r.skip.input.length + 1) r.skip []
      rw [heq] at hb
      have hw := readWordParts_offset_le r1.skip
      rw [heq2] at hw
      subst hr
      refine ⟨?_, ?_, ?_, ?_⟩
      · rw [← ht]; simp [Token.new]
      · rw [← ht]
        rfl
      · rw [← ht]
        rfl
      · exact lt_of_lt_of_le (Reader.skip_offset_lt r c hc)
          (le_trans hb (le_trans (Reader.skip_offset_le r1) hw))
    · simp at h
  · simp at h

/-- Helper: a successful `read_string` produces a non-end-of-input token
spanning from the entry position to the final position, strictly advancing
the offset. -/
theorem read_string_spec (r r' : Reader) (t : Token) (c : Char)
    (hc : r.currChar = some c) (h : read_string r = (.ok t, r')) :
    t.value ≠ .EOF ∧ t.location.start = r.pos ∧ t.location.stop = r'.pos ∧
      r.pos.offset < r'.pos.offset := by
  unfold read_string Lexer.read at h
  rw [hc] at h
  simp only [Option.getD_some] at h
  split at h
  · rename_i source value r2 heq
    simp only [Prod.mk.injEq, Except.ok.injEq] at h
    obtain ⟨ht, hr⟩ := h
    have hl := readStringLoop_offset_le c (r.skip.input.length + 1) r.skip [c] []
    rw [heq] at hl
    subst hr
    refine ⟨?_, ?_, ?_, ?_⟩
    · rw [← ht]; simp [Token.new]
    · rw [← ht]
      rfl
    · rw [← ht]
      rfl
    · exact lt_of_lt_of_le (Reader.skip_offset_lt r c hc) hl
  · simp at h

/-- Helper: a successful `read_word` produces a non-end-of-input token
spanning from the entry position to the final position, strictly advancing
the offset. -/
theorem read_word_spec (r r' : Reader) (t : Token) (c : Char)
    (hc : r.currChar = some c) (hcont : c = '\\' ∨ isEsIdentifierContinue c = true)
    (h : read_word r = (.ok t, r')) :
    t.value ≠ .EOF ∧ t.location.start = r.pos ∧ t.location.stop = r'.pos ∧
      r.pos.offset < r'.pos.offset := by
  unfold read_word at h
  split at h
  · rename_i s r1 heq
    simp only [Prod.mk.injEq, Except.ok.injEq] at h
    obtain ⟨ht, hr⟩ := h
    have hs := readWordParts_strict r c hc hcont
    rw [heq] at hs
    subst hr
    refine ⟨?_, ?_, ?_, ?_⟩
    · rw [← ht]
      unfold wordmapTokenize
      split <;> simp [Token.new]
    · rw [← ht]
      rfl
    · rw [← ht]
      rfl
    · exact hs
  · simp at h

/-- Helper: `readDecimalFrac` never decreases the offset. -/
theorem readDecimalFrac_offset_le (dot : Bool) (r : Reader) :
    r.pos.offset ≤ (readDecimalFrac dot r).2.pos.offset := by
  unfold readDecimalFrac
  split
  · split
    · split
      · exact readIntoUntil_offset_le _ _ r []
      · exact le_refl _
    · exact le_refl _
  · exact le_refl _

/-- Helper: a successful `read_radix_int` produces a token built by the
given constructor, spanning from the entry position to the final position,
strictly advancing the offset. -/
theorem read_radix_int_spec (r r' : Reader) (t : Token) (radix : Nat) (p : Char → Bool)
    (cons : CharCase → String → TokenData) (me : Error) (c : Char)
    (hc : r.currChar = some c)
    (h : read_radix_int r radix p cons me = (.ok t, r')) :
    (∃ flag s, t = Token.new r.pos r'.pos (cons flag s)) ∧ r.pos.offset < r'.pos.offset := by
  unfold read_radix_int Lexer.read at h
  dsimp only at h
  split at h
  · rename_i d s1 r3 heq
    rcases hri : readIntoUntil (fun ch => !p ch) (r3.input.length + 1) r3 s1 with ⟨s2, r4⟩
    rw [hri] at h
    dsimp only at h
    simp only [Prod.mk.injEq, Except.ok.injEq] at h
    obtain ⟨ht, hr⟩ := h
    have h1 := readDigitInto_offset_le r.skip.skip [] radix p me
    rw [heq] at h1
    have h2 := readIntoUntil_offset_le (fun ch => !p ch) (r3.input.length + 1) r3 s1
    rw [hri] at h2
    subst hr
    refine ⟨⟨_, _, ht.symm⟩, ?_⟩
    exact lt_of_lt_of_le (Reader.skip_offset_lt r c hc)
      (le_trans (Reader.skip_offset_le r.skip) (le_trans h1 h2))
  · simp at h

/-- Helper: `read_deprecated_oct_int` produces a number token spanning from
the entry position to the final position, strictly advancing the offset. -/
theorem read_deprecated_oct_int_span (r r' : Reader) (t : Token) (c : Char)
    (hc : r.currChar = some c) (h : read_deprecated_oct_int r = (t, r')) :
    (∃ ns, t = Token.new r.pos r'.pos (.Number ns)) ∧ r.pos.offset < r'.pos.offset := by
  unfold read_deprecated_oct_int at h
  dsimp only at h
  rcases hri : readIntoUntil (fun ch => !ch.isDigit) (r.skip.input.length + 1) r.skip []
    with ⟨s, r2⟩
  rw [hri] at h
  dsimp only at h
  simp only [Prod.mk.injEq] at h
  obtain ⟨ht, hr⟩ := h
  have h2 := readIntoUntil_offset_le (fun ch => !ch.isDigit) (r.skip.input.length + 1) r.skip []
  rw [hri] at h2
  subst hr
  constructor
  · rw [← ht]
    split
    · exact ⟨_, rfl⟩
    · exact ⟨_, rfl⟩
  · exact lt_of_lt_of_le (Reader.skip_offset_lt r c hc) h2

/-- Helper: a successful leading-dot float scan produces a number token
spanning from the entry position to the final position, strictly advancing
the offset. -/
theorem readNumberDotFloat_spec (r r' : Reader) (t : Token) (c : Char)
    (hc : r.currChar = some c)
    (h : readNumberDotFloat r = (.ok t, r')) :
    (∃ ns, t = Token.new r.pos r'.pos (.Number ns)) ∧ r.pos.offset < r'.pos.offset := by
  unfold readNumberDotFloat at h
  dsimp only at h
  rcases hri : readIntoUntil (fun c => !c.isDigit) (r.skip.input.length + 1) r.skip []
    with ⟨frac, r2⟩
  rw [hri] at h
  dsimp only at h
  split at h
  · rename_i exp r3 heq
    simp only [Prod.mk.injEq, Except.ok.injEq] at h
    obtain ⟨ht, hr⟩ := h
    have h2 := readIntoUntil_offset_le (fun c => !c.isDigit) (r.skip.input.length + 1) r.skip []
    rw [hri] at h2
    have h3 := read_exp_part_offset_le r2
    rw [heq] at h3
    subst hr
    exact ⟨⟨_, ht.symm⟩, lt_of_lt_of_le (Reader.skip_offset_lt r c hc) (le_trans h2 h3)⟩
  · simp at h

/-- Helper: a successful decimal scan produces a number token spanning from
the entry position to the final position, strictly advancing the offset. -/
theorem readNumberDecimal_spec (r r' : Reader) (t : Token) (c : Char)
    (hc : r.currChar = some c) (hd : c.isDigit = true)
    (h : readNumberDecimal r = (.ok t, r')) :
    (∃ ns, t = Token.new r.pos r'.pos (.Number ns)) ∧ r.pos.offset < r'.pos.offset := by
  unfold readNumberDecimal at h
  dsimp only at h
  have hstrict := readIntoUntil_strict (fun c => !c.isDigit) r.input.length r [] c hc
    (by simp [hd])
  rcases hri : readIntoUntil (fun c => !c.isDigit) (r.input.length + 1) r [] with ⟨intPart, r1⟩
  rw [hri] at h hstrict
  dsimp only at h
  have hm := Lexer.matches_offset_le r1 '.'
  rcases hmm : Lexer.matches r1 '.' with ⟨dotB, r2⟩
  rw [hmm] at h hm
  dsimp only at h
  have hf := readDecimalFrac_offset_le dotB r2
  rcases hfr : readDecimalFrac dotB r2 with ⟨frac, r3⟩
  rw [hfr] at h hf
  dsimp only at h
  split at h
  · rename_i exp r4 heq
    simp only [Prod.mk.injEq, Except.ok.injEq] at h
    obtain ⟨ht, hr⟩ := h
    have he := read_exp_part_offset_le r3
    rw [heq] at he
    subst hr
    constructor
    · rw [← ht]
      split
      · exact ⟨_, rfl⟩
      · exact ⟨_, rfl⟩
    · exact lt_of_lt_of_le hstrict (le_trans hm (le_trans hf he))
  · simp at h

/-- Helper: when the trailing identifier-start/digit check of `read_number`
passes with a token, the checked core result was that token and reader. -/
theorem postcheck_ok (tk t : Token) (r1 r' : Reader)
    (h : (match r1.currChar with
      | some ch =>
        if isEsIdentifierStart ch = true then
          ((Except.error (Error.IdAfterNumber ch) : Except Error Token), r1)
        else if ch.isDigit = true then (Except.error (Error.DigitAfterNumber ch), r1)
        else (Except.ok tk, r1)
      | none => (Except.ok tk, r1)) = (Except.ok t, r')) :
    t = tk ∧ r' = r1 := by
  split at h
  · split at h
    · simp at h
    · split at h
      · simp at h
      · simp only [Prod.mk.injEq, Except.ok.injEq] at h
        exact ⟨h.1.symm, h.2.symm⟩
  · simp only [Prod.mk.injEq, Except.ok.injEq] at h
    exact ⟨h.1.symm, h.2.symm⟩


/-- Helper: a successful `read_number` produces a number token spanning from
the entry position to the final position, strictly advancing the offset. -/
theorem read_number_spec (r r' : Reader) (t : Token) (c : Char)
    (hc : r.currChar = some c) (hint : c.isDigit = true ∨ c = '.')
    (h : read_number r = (.ok t, r')) :
    t.value ≠ .EOF ∧ t.location.start = r.pos ∧ t.location.stop = r'.pos ∧
      r.pos.offset < r'.pos.offset := by
  unfold read_number at h
  rw [hc] at h
  split at h
  case h_1 =>
    -- ('0','x') hex
    rename_i heq1 heq2
    rcases hcore : read_hex_int r with ⟨res, r1⟩
    rw [hcore] at h
    dsimp only at h
    cases res with
    | error e => simp at h
    | ok tk =>
      obtain ⟨ht, hr⟩ := postcheck_ok tk t r1 r' h
      unfold read_hex_int at hcore
      obtain ⟨⟨flag, s, htk⟩, hstrict⟩ :=
        read_radix_int_spec r r1 tk 16 _ _ _ c hc hcore
      subst ht
      subst hr
      rw [htk]
      refine ⟨by simp [Token.new], rfl, rfl, hstrict⟩
  case h_2 =>
    rename_i heq1 heq2
    rcases hcore : read_hex_int r with ⟨res, r1⟩
    rw [hcore] at h
    dsimp only at h
    cases res with
    | error e => simp at h
    | ok tk =>
      obtain ⟨ht, hr⟩ := postcheck_ok tk t r1 r' h
      unfold read_hex_int at hcore
      obtain ⟨⟨flag, s, htk⟩, hstrict⟩ :=
        read_radix_int_spec r r1 tk 16 _ _ _ c hc hcore
      subst ht
      subst hr
      rw [htk]
      refine ⟨by simp [Token.new], rfl, rfl, hstrict⟩
  case h_3 =>
    rename_i heq1 heq2
    rcases hcore : read_oct_int r with ⟨res, r1⟩
    rw [hcore] at h
    dsimp only at h
    cases res with
    | error e => simp at h
    | ok tk =>
      obtain ⟨ht, hr⟩ := postcheck_ok tk t r1 r' h
      unfold read_oct_int at hcore
      obtain ⟨⟨flag, s, htk⟩, hstrict⟩ :=
        read_radix_int_spec r r1 tk 8 _ _ _ c hc hcore
      subst ht
      subst hr
      rw [htk]
      refine ⟨by simp [Token.new], rfl, rfl, hstrict⟩
  case h_4 =>
    rename_i heq1 heq2
    rcases hcore : read_oct_int r with ⟨res, r1⟩
    rw [hcore] at h
    dsimp only at h
    cases res with
    | error e => simp at h
    | ok tk =>
      obtain ⟨ht, hr⟩ := postcheck_ok tk t r1 r' h
      unfold read_oct_int at hcore
      obtain ⟨⟨flag, s, htk⟩, hstrict⟩ :=
        read_radix_int_spec r r1 tk 8 _ _ _ c hc hcore
      subst ht
      subst hr
      rw [htk]
      refine ⟨by simp [Token.new], rfl, rfl, hstrict⟩
  case h_5 =>
    rename_i heq1 heq2
    rcases hcore : read_bin_int r with ⟨res, r1⟩
    rw [hcore] at h
    dsimp only at h
    cases res with
    | error e => simp at h
    | ok tk =>
      obtain ⟨ht, hr⟩ := postcheck_ok tk t r1 r' h
      unfold read_bin_int at hcore
      obtain ⟨⟨flag, s, htk⟩, hstrict⟩ :=
        read_radix_int_spec r r1 tk 2 _ _ _ c hc hcore
      subst ht
      subst hr
      rw [htk]
      refine ⟨by simp [Token.new], rfl, rfl, hstrict⟩
  case h_6 =>
    rename_i heq1 heq2
    rcases hcore : read_bin_int r with ⟨res, r1⟩
    rw [hcore] at h
    dsimp only at h
    cases res with
    | error e => simp at h
    | ok tk =>
      obtain ⟨ht, hr⟩ := postcheck_ok tk t r1 r' h
      unfold read_bin_int at hcore
      obtain ⟨⟨flag, s, htk⟩, hstrict⟩ :=
        read_radix_int_spec r r1 tk 2 _ _ _ c hc hcore
      subst ht
      subst hr
      rw [htk]
      refine ⟨by simp [Token.new], rfl, rfl, hstrict⟩
  case h_7 =>
    rename_i heq1 heq2
    injection heq1 with heq1
    split at h
    · rcases hdep : read_deprecated_oct_int r with ⟨tk, r1⟩
      rw [hdep] at h
      dsimp only at h
      obtain ⟨ht, hr⟩ := postcheck_ok tk t r1 r' h
      obtain ⟨⟨ns, htk⟩, hstrict⟩ := read_deprecated_oct_int_span r r1 tk c hc hdep
      subst ht
      subst hr
      rw [htk]
      refine ⟨by simp [Token.new], rfl, rfl, hstrict⟩
    · rcases hdec : readNumberDecimal r with ⟨res, r1⟩
      rw [hdec] at h
      dsimp only at h
      cases res with
      | error e => simp at h
      | ok tk =>
        obtain ⟨ht, hr⟩ := postcheck_ok tk t r1 r' h
        have hcd : c.isDigit = true := by rw [heq1]; decide
        obtain ⟨⟨ns, htk⟩, hstrict⟩ := readNumberDecimal_spec r r1 tk c hc hcd hdec
        subst ht
        subst hr
        rw [htk]
        refine ⟨by simp [Token.new], rfl, rfl, hstrict⟩
  case h_8 =>
    rename_i heq1
    rcases hdf : readNumberDotFloat r with ⟨res, r1⟩
    rw [hdf] at h
    dsimp only at h
    cases res with
    | error e => simp at h
    | ok tk =>
      obtain ⟨ht, hr⟩ := postcheck_ok tk t r1 r' h
      obtain ⟨⟨ns, htk⟩, hstrict⟩ := readNumberDotFloat_spec r r1 tk c hc hdf
      subst ht
      subst hr
      rw [htk]
      refine ⟨by simp [Token.new], rfl, rfl, hstrict⟩
  case h_9 =>
    rename_i hdot heq f1 f2 f3 f4 f5 f6 fcatch
    injection heq with heq
    subst heq
    have hcd : c.isDigit = true := by
      rcases hint with hh | hh
      · exact hh
      · exact (hdot hh).elim
    rcases hdec : readNumberDecimal r with ⟨res, r1⟩
    rw [hdec] at h
    dsimp only at h
    cases res with
    | error e => simp at h
    | ok tk =>
      obtain ⟨ht, hr⟩ := postcheck_ok tk t r1 r' h
      obtain ⟨⟨ns, htk⟩, hstrict⟩ := readNumberDecimal_spec r r1 tk c hc hcd hdec
      subst ht
      subst hr
      rw [htk]
      refine ⟨by simp [Token.new], rfl, rfl, hstrict⟩
  case h_10 =>
    rename_i heq
    exact Option.noConfusion heq

/-- Helper: whatever `read_token` returns, the lookahead buffer of the
resulting state is empty. -/
theorem read_token_lookahead_none (operator : Bool) (s s' : LexerState)
    (res : Except Error Token) (h : read_token operator s = (res, s')) :
    s'.lookahead = none := by
  unfold read_token at h
  split at h
  · split at h <;>
      (simp only [Prod.mk.injEq] at h; rw [← h.2])
  · simp only [Prod.mk.injEq] at h
    rw [← h.2]

/-- Helper: a successful `peek_token` leaves the returned token in the
lookahead buffer of the resulting state. -/
theorem peek_token_lookahead_some (operator : Bool) (s s' : LexerState) (t : Token)
    (h : peek_token operator s = (.ok t, s')) : s'.lookahead = some t := by
  unfold peek_token at h
  split at h
  · simp only [Prod.mk.injEq, Except.ok.injEq] at h
    rw [← h.2, ← h.1]
    assumption
  · split at h <;> simp only [Prod.mk.injEq, Except.ok.injEq] at h
    · rw [← h.2, ← h.1]
    · exact Except.noConfusion h.1

/-- Claim C3: legacy octal literals.  For a numeric literal starting with
`0` immediately followed by another decimal digit (no radix prefix letter),
the number sub-scanner reads the run of decimal digits after the `0` and
produces an octal `RadixInt` with no case marker over that run when every
digit of the run is octal-valid, and otherwise a `DecimalInt` whose digit
string is the run prefixed with the literal `0` (the hypothesis rules out an
identifier-start character directly after the run, which would instead raise
`IdAfterNumber`; a digit cannot follow the run by construction). -/
theorem C3_legacy_octal (r : Reader) (d : Char) (rest : List Char)
    (h : r.input = '0' :: d :: rest) (hd : d.isDigit = true)
    (hid : ∀ c, ((d :: rest).dropWhile Char.isDigit).head? = some c →
      isEsIdentifierStart c = false) :
    (read_number r).1.map Token.value =
      .ok (.Number (if ((d :: rest).takeWhile Char.isDigit).all isEsOctDigit then
          .RadixInt (.Oct none) (String.mk ((d :: rest).takeWhile Char.isDigit))
        else .DecimalInt (String.mk ('0' :: (d :: rest).takeWhile Char.isDigit)) none)) := by
  have hcc : r.currChar = some '0' := Reader.currChar_cons r _ _ h
  have hnc : r.nextChar = some d := by
    rw [Reader.nextChar_cons r _ _ h]
    rfl
  unfold read_number
  rw [hcc, hnc]
  split
  all_goals try (rename_i h1 h2; injection h2 with h2; subst h2; exact absurd hd (by decide))
  case h_8 =>
    rename_i heq
    injection heq with heq
    exact absurd heq (by decide)
  case h_9 =>
    rename_i heq f1 f2 f3 f4 f5 f6 fcatch
    injection heq with heq
    exact (fcatch d heq.symm rfl).elim
  case h_10 =>
    rename_i heq
    exact Option.noConfusion heq
  case h_7 =>
    rename_i heq1 heq2
    injection heq2 with heq2
    subst heq2
    rw [if_pos hd]
    rcases hdep : read_deprecated_oct_int r with ⟨t, r1⟩
    have hspec := read_deprecated_oct_int_spec r d rest h
    rw [hdep] at hspec
    obtain ⟨hval, hinp⟩ := hspec
    cases hr1c : r1.currChar with
    | none =>
      simp only [List.all_eq_true] at hval
      simp [hr1c, Except.map]
      exact hval
    | some ch =>
      have hch : (List.dropWhile Char.isDigit (d :: rest)).head? = some ch := by
        rw [← hinp]
        exact hr1c
      have hid2 := hid ch hch
      have hdig : ch.isDigit = false := head_dropWhile_not _ _ _ hch
      simp only [List.all_eq_true] at hval
      simp [hr1c, hid2, hdig, Except.map]
      exact hval

/-- Witness for C3 at the concrete source `"08"`: the digit `8` is not
octal-valid, so the scan falls back to `DecimalInt("08")`. -/
theorem C3_legacy_octal_witness :
    (read_number (mkReader "08")).1.map Token.value =
      .ok (.Number (.DecimalInt "08" none)) :=
  (C3_legacy_octal (mkReader "08") '8' [] (by rfl) (by decide)
    (fun c hc => Option.noConfusion hc)).trans (by rfl)

/-- Helper: packaging of a sub-scanner's span facts into the dispatch
conclusion. -/
theorem subscanner_arm_concl (r1 r2 : Reader) (t : Token)
    (hne : t.value ≠ TokenData.EOF) (hstart : t.location.start = r1.pos)
    (hstop : t.location.stop = r2.pos) (hlt : r1.pos.offset < r2.pos.offset) :
    (t.value = .EOF → t.location.start = r2.pos ∧ t.location.stop = r2.pos ∧ r2.input = [])
  ∧ (t.value ≠ .EOF → t.location.start.offset < t.location.stop.offset) := by
  constructor
  · intro hEOF
    exact absurd hEOF hne
  · intro _
    rw [hstart, hstop]
    exact hlt

/-- Helper: dispatch conclusion for a one-character punctuator arm. -/
theorem punc_arm_concl (r1 r2 : Reader) (t : Token) (v : TokenData) (c : Char)
    (hc : r1.currChar = some c) (hv : v ≠ TokenData.EOF)
    (h : (match read_punc r1 v with
          | (tk, rr) => ((Except.ok tk : Except Error Token), rr)) = (.ok t, r2)) :
    (t.value = .EOF → t.location.start = r2.pos ∧ t.location.stop = r2.pos ∧ r2.input = [])
  ∧ (t.value ≠ .EOF → t.location.start.offset < t.location.stop.offset) := by
  obtain ⟨hs, hl⟩ := read_punc_spec r1 v c hc
  rw [hs] at h
  dsimp only at h
  simp only [Prod.mk.injEq, Except.ok.injEq] at h
  obtain ⟨ht, hr⟩ := h
  constructor
  · intro hEOF
    rw [← ht] at hEOF
    simp only [Token.new] at hEOF
    exact absurd hEOF hv
  · intro _
    rw [← ht]
    exact hl

/-- Helper: dispatch conclusion for a two-character punctuator arm. -/
theorem punc2_arm_concl (r1 r2 : Reader) (t : Token) (v : TokenData) (c : Char)
    (hc : r1.currChar = some c) (hv : v ≠ TokenData.EOF)
    (h : (match read_punc2 r1 v with
          | (tk, rr) => ((Except.ok tk : Except Error Token), rr)) = (.ok t, r2)) :
    (t.value = .EOF → t.location.start = r2.pos ∧ t.location.stop = r2.pos ∧ r2.input = [])
  ∧ (t.value ≠ .EOF → t.location.start.offset < t.location.stop.offset) := by
  obtain ⟨hs, hl⟩ := read_punc2_spec r1 v c hc
  rw [hs] at h
  dsimp only at h
  simp only [Prod.mk.injEq, Except.ok.injEq] at h
  obtain ⟨ht, hr⟩ := h
  constructor
  · intro hEOF
    rw [← ht] at hEOF
    simp only [Token.new] at hEOF
    exact absurd hEOF hv
  · intro _
    rw [← ht]
    exact hl

/-- Helper: dispatch conclusion for a two-or-three-character punctuator
arm. -/
theorem punc23_arm_concl (r1 r2 : Reader) (t : Token) (ch : Char) (v2 v3 : TokenData) (c : Char)
    (hc : r1.currChar = some c) (hv2 : v2 ≠ TokenData.EOF) (hv3 : v3 ≠ TokenData.EOF)
    (h : (match read_punc2_3 r1 ch v2 v3 with
          | (tk, rr) => ((Except.ok tk : Except Error Token), rr)) = (.ok t, r2)) :
    (t.value = .EOF → t.location.start = r2.pos ∧ t.location.stop = r2.pos ∧ r2.input = [])
  ∧ (t.value ≠ .EOF → t.location.start.offset < t.location.stop.offset) := by
  obtain ⟨hs, hl⟩ := read_punc2_3_spec r1 ch v2 v3 c hc
  rw [hs] at h
  dsimp only at h
  simp only [Prod.mk.injEq, Except.ok.injEq] at h
  obtain ⟨ht, hr⟩ := h
  constructor
  · intro hEOF
    rw [← ht] at hEOF
    simp only [Token.new] at hEOF
    split at hEOF
    · exact absurd hEOF hv3
    · exact absurd hEOF hv2
  · intro _
    rw [← ht]
    exact hl

/-- Helper: every token a successful dispatch produces is either the
end-of-input token — with an empty span at the final position and an
exhausted input — or a token whose span strictly advances the offset. -/
theorem readNextTokenDispatch_spec (operator : Bool) (r1 r2 : Reader) (t : Token)
    (h : readNextTokenDispatch operator r1 = (.ok t, r2)) :
    (t.value = .EOF → t.location.start = r2.pos ∧ t.location.stop = r2.pos ∧ r2.input = [])
  ∧ (t.value ≠ .EOF → t.location.start.offset < t.location.stop.offset) := by
  unfold readNextTokenDispatch at h
  split at h
  case h_1 =>
    split at h
    · obtain ⟨hne, hstart, hstop, hlt⟩ := read_regexp_spec r1 r2 t '/' (by assumption) h
      exact subscanner_arm_concl r1 r2 t hne hstart hstop hlt
    · split at h
      · exact punc2_arm_concl r1 r2 t _ _ (by assumption) (by decide) h
      · exact punc_arm_concl r1 r2 t _ _ (by assumption) (by decide) h
  case h_2 =>
    split at h
    · split at h
      · obtain ⟨hne, hstart, hstop, hlt⟩ :=
          read_number_spec r1 r2 t '.' (by assumption) (Or.inr rfl) h
        exact subscanner_arm_concl r1 r2 t hne hstart hstop hlt
      · exact punc_arm_concl r1 r2 t _ _ (by assumption) (by decide) h
    · exact punc_arm_concl r1 r2 t _ _ (by assumption) (by decide) h
  case h_15 =>
    dsimp only at h
    split at h <;>
    · simp only [Prod.mk.injEq, Except.ok.injEq] at h
      obtain ⟨ht, hr⟩ := h
      constructor
      · intro hEOF
        rw [← ht] at hEOF
        simp [Token.new] at hEOF
      · intro _
        rw [← ht]
        simp only [Token.new]
        refine lt_of_lt_of_le (Reader.skip_offset_lt r1 '>' (by assumption)) ?_
        first
        | exact Reader.skip_offset_le r1.skip
        | exact le_trans (Reader.skip_offset_le r1.skip) (Reader.skip_offset_le r1.skip.skip)
        | exact le_trans (Reader.skip_offset_le r1.skip)
            (le_trans (Reader.skip_offset_le r1.skip.skip)
              (Reader.skip_offset_le r1.skip.skip.skip))
  case h_42 =>
    obtain ⟨hne, hstart, hstop, hlt⟩ := read_string_spec r1 r2 t '"' (by assumption) h
    exact subscanner_arm_concl r1 r2 t hne hstart hstop hlt
  case h_43 =>
    obtain ⟨hne, hstart, hstop, hlt⟩ := read_string_spec r1 r2 t '\'' (by assumption) h
    exact subscanner_arm_concl r1 r2 t hne hstart hstop hlt
  case h_44 =>
    split at h
    · obtain ⟨hne, hstart, hstop, hlt⟩ :=
        read_number_spec r1 r2 t _ (by assumption) (Or.inl (by assumption)) h
      exact subscanner_arm_concl r1 r2 t hne hstart hstop hlt
    · split at h
      · obtain ⟨hne, hstart, hstop, hlt⟩ := read_word_spec r1 r2 t _ (by assumption)
          (Or.inr (by simp only [isEsIdentifierContinue, Bool.or_eq_true]
                      exact Or.inl (by assumption))) h
        exact subscanner_arm_concl r1 r2 t hne hstart hstop hlt
      · split at h
        · obtain ⟨hne, hstart, hstop, hlt⟩ := read_word_spec r1 r2 t _ (by assumption)
            (Or.inl (by assumption)) h
          exact subscanner_arm_concl r1 r2 t hne hstart hstop hlt
        · simp at h
  case h_45 =>
    simp only [Prod.mk.injEq, Except.ok.injEq] at h
    obtain ⟨ht, hr⟩ := h
    subst hr
    constructor
    · intro _
      refine ⟨?_, ?_, ?_⟩
      · rw [← ht]
        rfl
      · rw [← ht]
        rfl
      · exact Reader.input_nil_of_currChar_none r1 (by assumption)
    · intro hne
      rw [← ht] at hne
      simp only [Token.new] at hne
      exact absurd rfl hne
  all_goals try exact punc_arm_concl r1 r2 t _ _ (by assumption) (by decide) h
  all_goals try exact punc2_arm_concl r1 r2 t _ _ (by assumption) (by decide) h
  all_goals try exact punc23_arm_concl r1 r2 t _ _ _ _ (by assumption) (by decide) (by decide) h



/-- Claim C9: token spans.  Every token produced by a successful scan has a
span whose start offset is strictly below its end offset, except the
synthetic end-of-input token, which is emitted exactly when the input is
exhausted and has start and end both equal to the current stream
position. -/
theorem C9_token_spans (operator : Bool) (r r' : Reader) (t : Token)
    (h : read_next_token operator r = (.ok t, r')) :
    (t.value = .EOF → t.location.start = r'.pos ∧ t.location.stop = r'.pos ∧ r'.input = [])
  ∧ (t.value ≠ .EOF → t.location.start.offset < t.location.stop.offset) := by
  unfold read_next_token at h
  split at h
  · split at h
    · rename_i t0 r2 heq2
      simp only [Prod.mk.injEq, Except.ok.injEq] at h
      obtain ⟨ht, hr⟩ := h
      have hspec := readNextTokenDispatch_spec operator _ r2 t0 heq2
      subst hr
      constructor
      · intro hEOF
        rw [← ht] at hEOF ⊢
        exact hspec.1 hEOF
      · intro hne
        rw [← ht] at hne ⊢
        exact hspec.2 hne
    · simp at h
  · simp at h

/-- Witness for C9 at the concrete source `+`: the produced `Plus` token's
span runs from offset 0 to offset 1. -/
theorem C9_token_spans_witness :
    (Token.new ⟨0, 0, 0⟩ ⟨1, 0, 1⟩ TokenData.Plus).location.start.offset <
      (Token.new ⟨0, 0, 0⟩ ⟨1, 0, 1⟩ TokenData.Plus).location.stop.offset :=
  (C9_token_spans true (mkReader "+") ⟨[], ⟨1, 0, 1⟩⟩
    (Token.new ⟨0, 0, 0⟩ ⟨1, 0, 1⟩ .Plus) (by rfl)).2 (by decide)

/-- Claim C4: maximal munch.  For every known multi-character punctuator,
scanning exactly that punctuator's text yields one token of the
corresponding kind followed directly by the end-of-input token — never a
sequence of shorter punctuator tokens; in particular `>>>=` yields a single
`URShiftAssign` token. -/
theorem C4_maximal_munch : puncCases.all puncCheck = true := by decide

/-- Claim C5: round-trip pushback.  For every token `t` just obtained from
`read_token`, `unread_token t` consumes no characters (the reader is
unchanged), and the following `read_token` returns `Ok` of exactly `t`,
restoring the same state — so the pair of calls consumes nothing from the
underlying source. -/
theorem C5_unread_roundtrip (operator : Bool) (s s' : LexerState) (t : Token)
    (h : read_token operator s = (.ok t, s')) :
    (unread_token t s').reader = s'.reader ∧
      read_token operator (unread_token t s') = (.ok t, s') := by
  have hl : s'.lookahead = none := read_token_lookahead_none operator s s' (.ok t) h
  refine ⟨rfl, ?_⟩
  show (Except.ok t, ({ reader := s'.reader, lookahead := none } : LexerState)) =
    (Except.ok t, s')
  rw [show ({ reader := s'.reader, lookahead := none } : LexerState) = s' by
    cases s' with
    | mk r l => simpa using hl.symm]

/-- Witness for C5 at a concrete input: reading the identifier token of
source `"x"`, unreading it and reading again returns the same token and
state. -/
theorem C5_unread_roundtrip_witness :
    (unread_token (Token.new ⟨0, 0, 0⟩ ⟨1, 0, 1⟩ (.Identifier "x"))
        ⟨⟨[], ⟨1, 0, 1⟩⟩, none⟩).reader = (⟨⟨[], ⟨1, 0, 1⟩⟩, none⟩ : LexerState).reader ∧
      read_token true (unread_token (Token.new ⟨0, 0, 0⟩ ⟨1, 0, 1⟩ (.Identifier "x"))
        ⟨⟨[], ⟨1, 0, 1⟩⟩, none⟩) =
        (.ok (Token.new ⟨0, 0, 0⟩ ⟨1, 0, 1⟩ (.Identifier "x")), ⟨⟨[], ⟨1, 0, 1⟩⟩, none⟩) :=
  C5_unread_roundtrip true (mkLexer "x") ⟨⟨[], ⟨1, 0, 1⟩⟩, none⟩
    (Token.new ⟨0, 0, 0⟩ ⟨1, 0, 1⟩ (.Identifier "x")) (by rfl)

/-- Claim C6: an error produces no token and leaves the lookahead buffer
unchanged (still empty): both `read_token` and `peek_token` can only fail
out of the fresh-scan path, which is taken when the buffer is empty, and the
failing call pushes nothing into the buffer. -/
theorem C6_error_empty_buffer (operator : Bool) (s : LexerState) (e : Error) :
    ((read_token operator s).1 = .error e →
      s.lookahead = none ∧ (read_token operator s).2.lookahead = none)
  ∧ ((peek_token operator s).1 = .error e →
      s.lookahead = none ∧ (peek_token operator s).2.lookahead = none) := by
  constructor
  · intro h
    refine ⟨?_, read_token_lookahead_none operator s _ _ rfl⟩
    unfold read_token at h
    split at h
    · assumption
    · simp_all
  · intro h
    cases hs : s.lookahead with
    | some t0 =>
      exfalso
      unfold peek_token at h
      rw [hs] at h
      simp at h
    | none =>
      refine ⟨rfl, ?_⟩
      unfold peek_token at h ⊢
      rw [hs] at h ⊢
      rcases hr : read_next_token operator s.reader with ⟨res, r1⟩
      rw [hr] at h
      cases res with
      | ok t1 => simp at h
      | error e1 => rfl

/-- Witness for C6 at a concrete input: lexing `"#"` fails with
`IllegalChar`, the buffer was empty before the call and is empty after. -/
theorem C6_error_empty_buffer_witness :
    (read_token true (mkLexer "#")).1 = .error (.IllegalChar '#') ∧
      ((mkLexer "#").lookahead = none ∧
        (read_token true (mkLexer "#")).2.lookahead = none) :=
  ⟨by rfl, (C6_error_empty_buffer true (mkLexer "#") (.IllegalChar '#')).1 (by rfl)⟩

/-- Claim C7: the iteration mode delegates to `read_token` and stops on the
end-of-input token or on any error: an item is produced exactly for a
successful non-end-of-input read, the end-of-input token is never yielded,
and an error is silently converted into end of iteration. -/
theorem C7_iterator_stops (operator : Bool) (s : LexerState) :
    (∀ t s1, lexerNext operator s = some (t, s1) →
      read_token operator s = (.ok t, s1) ∧ t.value ≠ .EOF)
  ∧ (∀ t s1, read_token operator s = (.ok t, s1) → t.value = .EOF →
      lexerNext operator s = none)
  ∧ (∀ e s1, read_token operator s = (.error e, s1) → lexerNext operator s = none) := by
  refine ⟨?_, ?_, ?_⟩
  · intro t s1 h
    unfold lexerNext at h
    split at h
    · split at h
      · exact Option.noConfusion h
      · simp only [Option.some.injEq, Prod.mk.injEq] at h
        rw [← h.1, ← h.2]
        constructor
        · assumption
        · assumption
    · exact Option.noConfusion h
  · intro t s1 h hEOF
    unfold lexerNext
    rw [h]
    simp [hEOF]
  · intro e s1 h
    unfold lexerNext
    rw [h]

/-- Witness for C7 at a concrete input: on empty source, `read_token`
returns the end-of-input token and the iteration produces no item. -/
theorem C7_iterator_stops_witness : lexerNext true (mkLexer "") = none :=
  (C7_iterator_stops true (mkLexer "")).2.1
    (Token.new ⟨0, 0, 0⟩ ⟨0, 0, 0⟩ .EOF) ⟨⟨[], ⟨0, 0, 0⟩⟩, none⟩ (by rfl) (by rfl)

/-- Claim C10: `peek_token` does not consume.  After a successful peek
returning `t`, peeking again returns `t` without changing the state at all
(so only the first peek scanned characters), and reading returns `t`,
merely emptying the buffer while leaving the reader untouched. -/
theorem C10_peek_idempotent_then_read (operator : Bool) (s s' : LexerState) (t : Token)
    (h : peek_token operator s = (.ok t, s')) :
    peek_token operator s' = (.ok t, s') ∧
      read_token operator s' = (.ok t, ⟨s'.reader, none⟩) := by
  have hl : s'.lookahead = some t := peek_token_lookahead_some operator s s' t h
  constructor
  · unfold peek_token
    rw [hl]
  · unfold read_token
    rw [hl]

/-- Witness for C10 at a concrete input: peeking the identifier token of
source `"x"` twice returns the same token and state, and the subsequent read
returns it consuming nothing. -/
theorem C10_peek_idempotent_then_read_witness :
    peek_token true ⟨⟨[], ⟨1, 0, 1⟩⟩, some (Token.new ⟨0, 0, 0⟩ ⟨1, 0, 1⟩ (.Identifier "x"))⟩ =
      (.ok (Token.new ⟨0, 0, 0⟩ ⟨1, 0, 1⟩ (.Identifier "x")),
        ⟨⟨[], ⟨1, 0, 1⟩⟩, some (Token.new ⟨0, 0, 0⟩ ⟨1, 0, 1⟩ (.Identifier "x"))⟩) ∧
      read_token true ⟨⟨[], ⟨1, 0, 1⟩⟩, some (Token.new ⟨0, 0, 0⟩ ⟨1, 0, 1⟩ (.Identifier "x"))⟩ =
        (.ok (Token.new ⟨0, 0, 0⟩ ⟨1, 0, 1⟩ (.Identifier "x")), ⟨⟨[], ⟨1, 0, 1⟩⟩, none⟩) :=
  C10_peek_idempotent_then_read true (mkLexer "x")
    ⟨⟨[], ⟨1, 0, 1⟩⟩, some (Token.new ⟨0, 0, 0⟩ ⟨1, 0, 1⟩ (.Identifier "x"))⟩
    (Token.new ⟨0, 0, 0⟩ ⟨1, 0, 1⟩ (.Identifier "x")) (by rfl)

/-- Helper: full characterization of the octal-escape loop of
`read_string_escape`: starting from an accumulator of at most 255 it
consumes a prefix `ds` of octal digits of the input, at most `n` of them,
accumulating base-8 without ever exceeding 255, and it stops early only at a
non-octal-digit or where consuming the next octal digit would exceed 255. -/
theorem octEscapeLoop_spec :
    ∀ (n : Nat) (r : Reader) (code : Nat) (src : List Char), code ≤ 255 →
      ∃ (ds : List Char) (r' : Reader),
        octEscapeLoop n r code src =
          (src ++ ds, ds.foldl (fun a c => a * 8 + charToDigit c) code, r') ∧
        ds.length ≤ n ∧
        (∀ c ∈ ds, isEsOctDigit c = true) ∧
        ds.foldl (fun a c => a * 8 + charToDigit c) code ≤ 255 ∧
        r'.input = r.input.drop ds.length ∧
        ds = r.input.take ds.length ∧
        (ds.length < n → ∀ c, r'.currChar = some c → isEsOctDigit c = true →
          (ds.foldl (fun a c => a * 8 + charToDigit c) code) * 8 + charToDigit c > 255) := by
  intro n
  induction n with
  | zero =>
    intro r code src hcode
    refine ⟨[], r, ?_, ?_, ?_, ?_, ?_, ?_, ?_⟩ <;> simp [octEscapeLoop, hcode]
  | succ n ih =>
    intro r code src hcode
    cases hc : r.currChar with
    | none =>
      refine ⟨[], r, ?_, ?_, ?_, ?_, ?_, ?_, ?_⟩ <;>
        simp [octEscapeLoop, hc, hcode]
    | some c =>
      by_cases hoct : isEsOctDigit c = true
      · by_cases hover : code * 8 + charToDigit c > 255
        · -- stops before consuming c
          refine ⟨[], r, ?_, ?_, ?_, ?_, ?_, ?_, ?_⟩
          · simp [octEscapeLoop, hc, hoct, hover]
          · simp
          · simp
          · simpa using hcode
          · simp
          · simp
          · intro _ c2 hc2 hoct2
            rw [hc] at hc2
            injection hc2 with hc2
            subst hc2
            simpa using hover
        · -- consumes c and recurses
          have hnew : code * 8 + charToDigit c ≤ 255 := Nat.not_lt.mp hover
          obtain ⟨ds, r', heq, hlen, hmem, hbound, hinp, htake, hstop⟩ :=
            ih r.skip (code * 8 + charToDigit c) (src ++ [c]) hnew
          obtain ⟨rest, hi⟩ : ∃ rest, r.input = c :: rest := by
            cases hi : r.input with
            | nil => rw [Reader.currChar, hi] at hc; exact Option.noConfusion hc
            | cons a rest =>
              have := Reader.currChar_cons r a rest hi
              rw [this] at hc
              injection hc with hc
              subst hc
              exact ⟨rest, rfl⟩
          have hskip : r.skip.input = rest := Reader.skip_input_cons r c rest hi
          refine ⟨c :: ds, r', ?_, ?_, ?_, ?_, ?_, ?_, ?_⟩
          · rw [show octEscapeLoop (n + 1) r code src =
                octEscapeLoop n r.skip (code * 8 + charToDigit c) (src ++ [c]) by
              simp [octEscapeLoop, hc, hoct, Nat.not_lt.mpr hnew]]
            rw [heq]
            simp
          · simpa using Nat.succ_le_succ hlen
          · intro c2 hc2
            rcases List.mem_cons.mp hc2 with h | h
            · rw [h]; exact hoct
            · exact hmem c2 h
          · simpa using hbound
          · rw [hinp, hskip, hi]
            simp
          · rw [htake, hskip, hi]
            simp
          · intro hlt c2 hc2 hoct2
            have hlt2 : ds.length < n := by simpa using hlt
            have := hstop hlt2 c2 hc2 hoct2
            simpa using this
      · -- current char is not an octal digit: stop
        refine ⟨[], r, ?_, ?_, ?_, ?_, ?_, ?_, ?_⟩
        · simp [octEscapeLoop, hc, hoct]
        · simp
        · simp
        · simpa using hcode
        · simp
        · simp
        · intro _ c2 hc2 hoct2
          rw [hc] at hc2
          injection hc2 with hc2
          subst hc2
          exact absurd hoct2 hoct

/-- Claim C8: legacy octal escapes in string literals.  With the reader on
the backslash and an octal digit following it, `read_string_escape` consumes
the backslash plus at most 3 octal digits `ds`, accumulating base-8 and
stopping before any digit that would push the accumulated value over 255
(the final conjunct: an early stop happens only at a non-octal digit or one
that would exceed 255), and the decoded value receives the single character
whose code is the accumulated value. -/
theorem C8_octal_escape (r : Reader) (src val : List Char) (d : Char)
    (_hbs : r.currChar = some '\\') (hd : r.skip.currChar = some d) (h3 : isEsOctDigit d = true) :
    ∃ (ds : List Char) (r' : Reader),
      read_string_escape r src val =
        (.ok (src ++ '\\' :: ds,
          val ++ [Char.ofNat (ds.foldl (fun a c => a * 8 + charToDigit c) 0)]), r') ∧
      ds.length ≤ 3 ∧
      (∀ c ∈ ds, isEsOctDigit c = true) ∧
      ds.foldl (fun a c => a * 8 + charToDigit c) 0 ≤ 255 ∧
      r'.input = r.skip.input.drop ds.length ∧
      (ds.length < 3 → ∀ c, r'.currChar = some c → isEsOctDigit c = true →
        (ds.foldl (fun a c => a * 8 + charToDigit c) 0) * 8 + charToDigit c > 255) := by
  obtain ⟨ds, r', heq, hlen, hmem, hbound, hinp, htake, hstop⟩ :=
    octEscapeLoop_spec 3 r.skip 0 (src ++ ['\\']) (by omega)
  refine ⟨ds, r', ?_, hlen, hmem, hbound, hinp, hstop⟩
  have hchar : charFromU32 (ds.foldl (fun a c => a * 8 + charToDigit c) 0) =
      some (Char.ofNat (ds.foldl (fun a c => a * 8 + charToDigit c) 0)) := by
    unfold charFromU32
    rw [if_pos (Or.inl (by omega))]
  unfold read_string_escape Lexer.reread
  dsimp only
  rw [hd]
  dsimp only
  rw [if_pos h3, heq]
  simp [hchar]

/-- Witness for C8 at the concrete source `\777x`: only two of the three
`7`s are consumed (a third would make 511 > 255), the value receives the
character with code 63. -/
theorem C8_octal_escape_witness :
    ∃ (ds : List Char) (r' : Reader),
      read_string_escape (mkReader "\\777x") [] [] =
        (.ok ([] ++ '\\' :: ds,
          [] ++ [Char.ofNat (ds.foldl (fun a c => a * 8 + charToDigit c) 0)]), r') ∧
      ds.length ≤ 3 ∧
      (∀ c ∈ ds, isEsOctDigit c = true) ∧
      ds.foldl (fun a c => a * 8 + charToDigit c) 0 ≤ 255 ∧
      r'.input = (mkReader "\\777x").skip.input.drop ds.length ∧
      (ds.length < 3 → ∀ c, r'.currChar = some c → isEsOctDigit c = true →
        (ds.foldl (fun a c => a * 8 + charToDigit c) 0) * 8 + charToDigit c > 255) :=
  C8_octal_escape (mkReader "\\777x") [] [] '7' (by rfl) (by rfl) (by decide)

/-- Claim C1, counterexample: with the context flag indicating that the
preceding token cannot end an expression, the input `/=a/` — whose first
token starts with `/` immediately followed by `=` — is scanned as the
regular-expression literal `/=a/` (pattern `=a`), not as the `/=` operator:
the `=` does not force the division reading, contrary to the claim's
"regardless of the context flag's value". -/
theorem C1_counterexample :
    (read_next_token false (mkReader "/=a/")).1 =
      .ok ⟨⟨⟨0, 0, 0⟩, ⟨4, 0, 4⟩⟩, false, .RegExp ⟨"=a", []⟩⟩ ∧
    TokenData.RegExp ⟨"=a", []⟩ ≠ TokenData.SlashAssign := by
  constructor
  · rfl
  · decide

/-- Helper: when the current character is `/` and it does not open a line or
block comment, the whitespace-and-comments loop of `read_next_token` stops
immediately. -/
theorem skipWhitespaceAndComments_slash (r : Reader) (fn : Bool) (fuel : Nat)
    (hc : r.currChar = some '/') (h2 : r.nextChar ≠ some '/') (h3 : r.nextChar ≠ some '*') :
    skipWhitespaceAndComments (fuel + 1) r fn = (.ok fn, r) := by
  simp only [skipWhitespaceAndComments]
  rw [hc]
  simp [isEsWhitespace, isEsNewline, h2, h3]

/-- Claim C1 (amended): classification of a leading `/`.  When the
disambiguation context indicates the preceding token can end an expression
(`operator = true`), a following `=` selects the `/=` operator and anything
else selects `/`; when it does not (`operator = false`), the scanner reads a
regular-expression literal regardless of the following character — a `=`
does not force the division reading. -/
theorem C1_amended_slash_dispatch (operator : Bool) (r : Reader)
    (h1 : r.currChar = some '/') (h2 : r.nextChar ≠ some '/') (h3 : r.nextChar ≠ some '*') :
    (operator = true → r.nextChar = some '=' →
      read_next_token operator r =
        (.ok (Token.new r.pos r.skip.skip.pos .SlashAssign), r.skip.skip))
  ∧ (operator = true → r.nextChar ≠ some '=' →
      read_next_token operator r = (.ok (Token.new r.pos r.skip.pos .Slash), r.skip))
  ∧ (operator = false →
      read_next_token operator r =
        ((read_regexp r).1.map (fun t => { t with newline := false }), (read_regexp r).2)) := by
  have hskip := skipWhitespaceAndComments_slash r false r.input.length h1 h2 h3
  refine ⟨?_, ?_, ?_⟩
  · intro hop heq
    subst hop
    unfold read_next_token
    rw [hskip]
    dsimp only
    unfold readNextTokenDispatch
    rw [h1, heq]
    dsimp only
    rfl
  · intro hop hne
    subst hop
    unfold read_next_token
    rw [hskip]
    dsimp only
    unfold readNextTokenDispatch
    rw [h1]
    dsimp only
    simp [hne, read_punc]
    rfl
  · intro hop
    subst hop
    unfold read_next_token
    rw [hskip]
    dsimp only
    unfold readNextTokenDispatch
    rw [h1]
    dsimp only
    rcases hrx : read_regexp r with ⟨res, r1⟩
    cases res with
    | ok t => simp [Except.map]
    | error e => simp [Except.map]

/-- Witness for C1 at the concrete source `/=` in operator context: the
scanner produces the `/=` (SlashAssign) token. -/
theorem C1_amended_slash_dispatch_witness :
    read_next_token true (mkReader "/=") =
      (.ok (Token.new (mkReader "/=").pos (mkReader "/=").skip.skip.pos .SlashAssign),
        (mkReader "/=").skip.skip) :=
  (C1_amended_slash_dispatch true (mkReader "/=") (by rfl) (by decide) (by decide)).1
    rfl (by rfl)

/-- Claim C2, evaluation at the failing inputs: the scan of `/ab` hits
end-of-input before any closing `/` yet returns a successful regular
expression token with pattern `ab` (the release build skips the violated
`debug_assert!` in `reread`; the `UnterminatedRegExp(None)` arms of
`read_regexp_char`/`read_regexp_class_char` are unreachable because
`read_until_with` returns `Ok` at end-of-input), and the scan of `/[` LF
`]/` accepts the line terminator inside the character class as a pattern
character (`read_regexp_class_char` has no newline check). -/
theorem C2_failing_input_eval :
    ((read_next_token false (mkReader "/ab")).1).map Token.value =
        .ok (.RegExp ⟨"ab", []⟩) ∧
      ((read_next_token false (mkReader "/[\n]/")).1).map Token.value =
        .ok (.RegExp ⟨"[\n]", []⟩) := by
  constructor
  · rfl
  · rfl

end Joker
